import Mathlib

/-!
# Ledger and pending-balance reconciliation engine: shallow embedding

This file embeds the game-entry ledger of `api/routes/gameEntries.js`
(the router inlined in `src/admin/UserALLCashout.tsx`, lines 253-1438)
together with the Mongoose models `GameEntry` and `Game`
(`api/models/GameEntry.js`, `api/models/Game.js`).

Modelling conventions:
* JS numbers are modelled as `ℤ`.  Every numeric field stored by the routes
  passes `Number.isFinite` checks or `toNumber(_, default)` normalisation, so
  the non-finite cases (`NaN`, `Infinity`) collapse to the defaults.  The
  ledger only ever adds, subtracts, negates, compares and floors amounts at
  zero, all of which are parametric in the ordered ring, so the integer
  fragment carries every property stated here unchanged.
* A Mongo document field that can be absent in a raw (`.lean()`) document is
  an `Option`; `x ?? d` and `toNumber(x, d)` on such a field become `x.getD d`.
  Fields that are `required` in the schema (`username`, `createdBy`, `type`,
  `gameName`, `amountBase`, `amountFinal`) are plain values, which collapses
  the defensive `?? 0` / `$ifNull` fallbacks the code applies to them.
* Mongoose `trim: true` string options apply a trim on assignment; the model
  trims at each store.  Mongoose validation on `save`/`create` (`required`,
  `min: 0`, `enum`) is the `entryValid` check; a failed save raises, the
  route catches and answers 500 with no state change.
* The record store is a list in `createdAt` order (`find().sort(createdAt:1)`
  is the list itself, `sort(createdAt:-1)` the reverse).
-/

set_option maxRecDepth 8000

namespace Shopie

/-- JS `String.prototype.trim`: drop whitespace from both ends.
Also models the Mongoose `trim: true` setter and backend `.trim()` calls. -/
def jsTrim (s : String) : String :=
  ⟨(s.data.dropWhile Char.isWhitespace).rdropWhile Char.isWhitespace⟩

/-- `ALLOWED_TYPES = ["freeplay", "deposit", "redeem", "playedgame"]`
(`api/models/GameEntry.js`).  A request `type` outside this enum is rejected
by the route (`Invalid type`), so the stored kind is one of these four. -/
inductive EType where
  | freeplay
  | deposit
  | redeem
  | playedgame
deriving DecidableEq, Repr

/-- `ALLOWED_METHODS` from `api/models/GameEntry.js`. -/
def ALLOWED_METHODS : List String := ["cashapp", "paypal", "chime", "venmo"]

/-- One `GameEntry` document.  `eid` stands for the Mongo `_id`; the store
keeps documents in `createdAt` order, so "latest" = last in the list.
Fields that are `required` in the schema are plain; fields that a raw
document may lack (no strict guarantee in old data, guarded by `??` /
`toNumber` in every read) are `Option`.  String fields with schema
`default: ""` are plain strings. -/
structure Entry where
  eid : Nat
  username : String
  createdBy : String
  type : EType
  method : Option String
  playerName : String
  playerTag : String
  gameName : String
  amountBase : ℤ
  amount : Option ℤ
  bonusRate : ℤ
  bonusAmount : ℤ
  amountFinal : ℤ
  note : String
  date : Option String
  totalPaid : Option ℤ
  totalCashout : Option ℤ
  remainingPay : Option ℤ
  isPending : Bool
  extraMoney : Option ℤ
  reduction : Option ℤ
deriving DecidableEq, Repr

/-- `min: 0` schema constraint on an optional numeric field. -/
def optNonneg : Option ℤ → Bool
  | none => true
  | some q => decide (0 ≤ q)

/-- Mongoose validation of a `GameEntry` document on `create`/`save`:
`required` (non-empty trimmed strings), the `method` enum together with its
conditional `required` (present iff needed for deposit/redeem, and in
`ALLOWED_METHODS` whenever present), and `min: 0` on every numeric field.
A failing save throws; the route catches it and answers 500 without
changing any state. -/
def entryValid (e : Entry) : Bool :=
  e.username ≠ "" && e.createdBy ≠ "" && e.gameName ≠ "" &&
  (match e.method with
   | some m => ALLOWED_METHODS.contains m
   | none => !(e.type = EType.deposit || e.type = EType.redeem)) &&
  decide (0 ≤ e.amountBase) && decide (0 ≤ e.bonusRate) &&
  decide (0 ≤ e.bonusAmount) && decide (0 ≤ e.amountFinal) &&
  optNonneg e.amount && optNonneg e.totalPaid && optNonneg e.totalCashout &&
  optNonneg e.remainingPay && optNonneg e.extraMoney && optNonneg e.reduction

/-- `coinEffect(type, amountFinal)` (UserALLCashout.tsx:307-318): `0` unless
the amount is a positive finite number; minus for freeplay, playedgame and
deposit; plus for redeem.  Model integers are always finite, so the
`Number.isFinite` guard collapses to the sign test. -/
def coinEffect (type : EType) (amountFinal : ℤ) : ℤ :=
  if amountFinal ≤ 0 then 0
  else
    match type with
    | EType.deposit | EType.freeplay | EType.playedgame => -amountFinal
    | EType.redeem => amountFinal

/-- The `Game` collection: one row per game, `(name, totalCoins)`.
`coinsRecharged` / `lastRechargeDate` are never read or written by the
ledger routes and are omitted. -/
abbrev Games := List (String × ℤ)

/-- `game.totalCoins = Number(game.totalCoins || 0) + delta; game.save()`
applied to the row `findOne({name})` returns, i.e. the first row with the
given name.  `totalCoins` is a plain schema number (default 0), so the
`|| 0` guard collapses. -/
def updateFirstGame (name : String) (delta : ℤ) : Games → Games
  | [] => []
  | g :: rest =>
    if g.1 = name then (g.1, g.2 + delta) :: rest
    else g :: updateFirstGame name delta rest

/-- `applyGameDelta(gameName, delta)` (UserALLCashout.tsx:321-335): trims the
name, silently ignores an empty name or a missing `Game` row, otherwise adds
`delta` to that row's `totalCoins`. -/
def applyGameDelta (games : Games) (gameName : String) (delta : ℤ) : Games :=
  let name := jsTrim gameName
  if name = "" then games else updateFirstGame name delta games

/-- `Game.findOne({name}).totalCoins`: the first row with that exact name. -/
def getCoins (games : Games) (name : String) : Option ℤ :=
  (games.find? (fun g => g.1 == name)).map (fun g => g.2)

/-- One `GameEntryHistory` document (`recordHistory`, UserALLCashout.tsx:338-376):
the entry's identity, an action label, and a full snapshot (the explicit
field copies in the source are all contained in the snapshot). -/
structure HistRecord where
  entryId : Nat
  action : String
  snapshot : Entry
deriving DecidableEq, Repr

/-- `recordHistory(entry, action)` wrapped in its `try/catch`: the only
effect of `GameEntryHistory.create` is the appended row, so a failure
(modelled by `histOk = false`) just leaves the log unchanged; the error is
logged and swallowed. -/
def recordHistory (hist : List HistRecord) (histOk : Bool) (e : Entry)
    (action : String) : List HistRecord :=
  if histOk then hist ++ [{ entryId := e.eid, action := action, snapshot := e }]
  else hist

/-- The persistent state the ledger routes read and write: the `GameEntry`
collection (in `createdAt` order), the next fresh `_id`, the `Game`
collection, and the `GameEntryHistory` collection. -/
structure Store where
  entries : List Entry
  nextId : Nat
  games : Games
  hist : List HistRecord
deriving DecidableEq, Repr

/-- `normalizeDateString` (UserALLCashout.tsx:285-299) for string input:
falsy input gives `undefined`; a string matching `^\d{4}-\d{2}-\d{2}` is cut
to its first 10 characters.  The remaining branch (JS `Date` parsing of
arbitrary strings) is approximated as failure; no claim depends on it. -/
def looksLikeIsoDate (s : String) : Bool :=
  match s.data with
  | y1 :: y2 :: y3 :: y4 :: c1 :: m1 :: m2 :: c2 :: d1 :: d2 :: _ =>
    y1.isDigit && y2.isDigit && y3.isDigit && y4.isDigit &&
    c1 = '-' && m1.isDigit && m2.isDigit && c2 = '-' && d1.isDigit && d2.isDigit
  | _ => false

/-- See `looksLikeIsoDate`. -/
def normalizeDateString : Option String → Option String
  | none => none
  | some d =>
    if d = "" then none
    else if looksLikeIsoDate d then some ⟨d.data.take 10⟩
    else none

/-- The request body of `POST /api/game-entries`.  `none` models an absent
(or nullish) JSON field; a numeric field also becomes `none` when JS
`toNumber` would fall back to its default because the value is not a finite
number. -/
structure CreateInput where
  username : Option String
  createdBy : Option String
  type : Option EType
  method : Option String
  playerName : Option String
  playerTag : Option String
  gameName : Option String
  amountBase : Option ℤ
  amount : Option ℤ
  bonusRate : Option ℤ
  bonusAmount : Option ℤ
  amountFinal : Option ℤ
  date : Option String
  note : Option String
  totalPaid : Option ℤ
  totalCashout : Option ℤ
  remainingPay : Option ℤ
  extraMoney : Option ℤ
  reduction : Option ℤ
  isPending : Bool
deriving DecidableEq, Repr

/-- A route response, keeping just what the claims observe: the HTTP status
class and the returned entry. -/
inductive Resp where
  | badRequest (msg : String)
  | notFound (msg : String)
  | serverError (msg : String)
  | okEntry (status : Nat) (e : Entry)
  | okDeleted
deriving DecidableEq, Repr

/-- `GameEntry.findOne({username, playerTag, type: "deposit"}).sort({createdAt: -1})`:
the most recently created deposit row for the pair. -/
def findLatestDeposit (entries : List Entry) (u tag : String) : Option Entry :=
  (entries.filter (fun e =>
    e.username == u && e.playerTag == tag && e.type == EType.deposit)).getLast?

/-- The merged document built by the deposit-merge branch of `POST /`
(UserALLCashout.tsx:526-569), before `existing.save()`:
accumulate `amountBase`/`amount`/`amountFinal`, first-write-wins
`totalCashout`, accumulate `extraMoney`, overwrite `playerName`/`note`/`date`
only when supplied, then recompute `reduction = max(totalCashout − amountFinal, 0)`
and `isPending = reduction > 0`.  Assignments to `trim: true` string paths
trim. -/
def mergeInto (existing : Entry) (inp : CreateInput) : Entry :=
  let base := (inp.amountBase).getD 0
  let final := (inp.amountFinal).getD 0
  let incomingAmount := match inp.amount with
    | some a => a
    | none => final
  let incomingTotalCashout := (inp.totalCashout).getD 0
  let incomingExtraMoney := (inp.extraMoney).getD 0
  let mergedAmountFinal := existing.amountFinal + final
  let mergedTotalCashout : Option ℤ :=
    if existing.totalCashout.getD 0 = 0 then some incomingTotalCashout
    else existing.totalCashout
  let recalculatedReduction := mergedTotalCashout.getD 0 - mergedAmountFinal
  let newReduction : ℤ :=
    if 0 < recalculatedReduction then recalculatedReduction else 0
  { existing with
    amountBase := existing.amountBase + base
    amount := some (existing.amount.getD 0 + incomingAmount)
    amountFinal := mergedAmountFinal
    totalCashout := mergedTotalCashout
    extraMoney := some (existing.extraMoney.getD 0 + incomingExtraMoney)
    playerName := match inp.playerName with
      | some pn => jsTrim pn
      | none => existing.playerName
    note := match inp.note with
      | some n => jsTrim n
      | none => existing.note
    date := match inp.date with
      | some d => normalizeDateString (some d)
      | none => existing.date
    reduction := some newReduction
    isPending := decide (0 < newReduction) }

/-- The fresh document of the default create path of `POST /`
(UserALLCashout.tsx:587-612), before Mongoose validation. -/
def mkNewDoc (nextId : Nat) (inp : CreateInput) : Entry :=
  let final := (inp.amountFinal).getD 0
  { eid := nextId
    username := jsTrim (inp.username.getD "")
    createdBy := jsTrim (inp.createdBy.getD "")
    type := inp.type.getD EType.freeplay
    method := match inp.method with
      | some m => if m = "" then none else some m
      | none => none
    playerName := jsTrim (inp.playerName.getD "")
    playerTag := jsTrim (inp.playerTag.getD "")
    gameName := jsTrim (inp.gameName.getD "")
    amountBase := (inp.amountBase).getD 0
    amount := some (match inp.amount with
      | some a => a
      | none => final)
    bonusRate := (inp.bonusRate).getD 0
    bonusAmount := (inp.bonusAmount).getD 0
    amountFinal := final
    date := normalizeDateString inp.date
    note := jsTrim (inp.note.getD "")
    totalPaid := some ((inp.totalPaid).getD 0)
    totalCashout := some ((inp.totalCashout).getD 0)
    remainingPay := some ((inp.remainingPay).getD 0)
    isPending := inp.isPending
    extraMoney := some ((inp.extraMoney).getD 0)
    reduction := some ((inp.reduction).getD 0) }

/-- The default create path: `GameEntry.create(...)` (validation plus
insert), `recordHistory(doc, "create")`, and a full coin effect applied to
the new document's game. -/
def createDefault (st : Store) (inp : CreateInput) (histOk : Bool) :
    Store × Resp :=
  let doc := mkNewDoc st.nextId inp
  if entryValid doc then
    let delta := coinEffect doc.type doc.amountFinal
    let games1 := if delta ≠ 0 then applyGameDelta st.games doc.gameName delta
      else st.games
    ({ entries := st.entries ++ [doc]
       nextId := st.nextId + 1
       games := games1
       hist := recordHistory st.hist histOk doc "create" },
     Resp.okEntry 201 doc)
  else (st, Resp.serverError "Failed to create game entry")

/-- The sequential validation prelude of `POST /api/game-entries`
(UserALLCashout.tsx:471-498): the first failing guard answers 400. -/
def createValidationError (inp : CreateInput) : Option Resp :=
  if jsTrim (inp.username.getD "") = "" then
    some (Resp.badRequest "username is required")
  else if jsTrim (inp.createdBy.getD "") = "" then
    some (Resp.badRequest "createdBy is required")
  else
    match inp.type with
    | none => some (Resp.badRequest "Invalid type")
    | some ty =>
      if (ty = EType.deposit || ty = EType.redeem) &&
          !(ALLOWED_METHODS.contains (inp.method.getD "")) then
        some (Resp.badRequest "Invalid or missing method")
      else if jsTrim (inp.gameName.getD "") = "" then
        some (Resp.badRequest "gameName is required")
      else
        match inp.amountBase with
        | none => some (Resp.badRequest "Invalid amountBase")
        | some base =>
          if base < 0 then some (Resp.badRequest "Invalid amountBase")
          else
            match inp.amountFinal with
            | none => some (Resp.badRequest "Invalid amountFinal")
            | some final =>
              if final < 0 then some (Resp.badRequest "Invalid amountFinal")
              else none

/-- The deposit-merge special-case guard of `POST /`
(UserALLCashout.tsx:518): `type === "deposit" && cleanPlayerTag &&
numericReduction > 0`. -/
def mergeApplies (inp : CreateInput) : Bool :=
  inp.type == some EType.deposit && jsTrim (inp.playerTag.getD "") ≠ "" &&
  decide (0 < (inp.reduction).getD 0)

/-- The deposit-merge branch of `POST /` once a merge target `existing` is
found (UserALLCashout.tsx:526-582): save the merged row, record an
`update-merge` history action, apply only the coin-effect difference. -/
def createMerge (st : Store) (inp : CreateInput) (histOk : Bool)
    (existing : Entry) : Store × Resp :=
  let merged := mergeInto existing inp
  if entryValid merged then
    let oldDelta := coinEffect existing.type existing.amountFinal
    let newDelta := coinEffect merged.type merged.amountFinal
    let diffDelta := newDelta - oldDelta
    let games1 := if diffDelta ≠ 0 then
        applyGameDelta st.games merged.gameName diffDelta
      else st.games
    ({ entries := st.entries.map (fun e =>
         if e.eid == existing.eid then merged else e)
       nextId := st.nextId
       games := games1
       hist := recordHistory st.hist histOk merged "update-merge" },
     Resp.okEntry 200 merged)
  else (st, Resp.serverError "Failed to create game entry")

/-- `POST /api/game-entries` (UserALLCashout.tsx:446-627): field validation,
then either the deposit-merge special case or the default insert. -/
def createEntry (st : Store) (inp : CreateInput) (histOk : Bool) :
    Store × Resp :=
  match createValidationError inp with
  | some r => (st, r)
  | none =>
    if mergeApplies inp then
      match findLatestDeposit st.entries (jsTrim (inp.username.getD ""))
          (jsTrim (inp.playerTag.getD "")) with
      | some existing => createMerge st inp histOk existing
      | none => createDefault st inp histOk
    else createDefault st inp histOk

/-- The request body of `PUT /api/game-entries/:id`.  Numeric fields from
`simpleFields` go through `toNumber(payload[f], 0)`, so a supplied
non-numeric value means `some 0`; `none` is an absent field. -/
structure UpdatePayload where
  username : Option String
  createdBy : Option String
  type : Option EType
  method : Option String
  playerName : Option String
  playerTag : Option String
  gameName : Option String
  amount : Option ℤ
  bonusRate : Option ℤ
  bonusAmount : Option ℤ
  note : Option String
  totalPaid : Option ℤ
  totalCashout : Option ℤ
  remainingPay : Option ℤ
  extraMoney : Option ℤ
  reduction : Option ℤ
  isPending : Option Bool
  amountBase : Option ℤ
  amountFinal : Option ℤ
  date : Option String
deriving DecidableEq, Repr

/-- Field application of `PUT /:id` (UserALLCashout.tsx:1326-1385) on the
loaded document.  Assignments to `trim: true` schema paths trim. -/
def applyUpdate (e : Entry) (p : UpdatePayload) : Entry :=
  { e with
    amountBase := p.amountBase.getD e.amountBase
    amountFinal := p.amountFinal.getD e.amountFinal
    username := match p.username with
      | some s => jsTrim s
      | none => e.username
    createdBy := match p.createdBy with
      | some s => jsTrim s
      | none => e.createdBy
    type := p.type.getD e.type
    method := match p.method with
      | some m => some m
      | none => e.method
    playerName := match p.playerName with
      | some s => jsTrim s
      | none => e.playerName
    playerTag := match p.playerTag with
      | some s => jsTrim s
      | none => e.playerTag
    gameName := match p.gameName with
      | some s => jsTrim s
      | none => e.gameName
    amount := match p.amount with
      | some q => some q
      | none => e.amount
    bonusRate := p.bonusRate.getD e.bonusRate
    bonusAmount := p.bonusAmount.getD e.bonusAmount
    note := match p.note with
      | some s => jsTrim s
      | none => e.note
    totalPaid := match p.totalPaid with
      | some q => some q
      | none => e.totalPaid
    totalCashout := match p.totalCashout with
      | some q => some q
      | none => e.totalCashout
    remainingPay := match p.remainingPay with
      | some q => some q
      | none => e.remainingPay
    extraMoney := match p.extraMoney with
      | some q => some q
      | none => e.extraMoney
    reduction := match p.reduction with
      | some q => some q
      | none => e.reduction
    isPending := p.isPending.getD e.isPending
    date := match p.date with
      | some d => normalizeDateString (some d)
      | none => e.date }

/-- `PUT /api/game-entries/:id` (UserALLCashout.tsx:1302-1407): load, snapshot
the old `(type, amountFinal, gameName)`, validate, apply fields, save,
record an `update` history action, then reverse the old coin effect and
apply the new one (each skipped when zero). -/
def updateEntry (st : Store) (id : Nat) (p : UpdatePayload) (histOk : Bool) :
    Store × Resp :=
  match st.entries.find? (fun e => e.eid == id) with
  | none => (st, Resp.notFound "Game entry not found")
  | some entry =>
    if (match p.method with
        | some m => m ≠ "" && !(ALLOWED_METHODS.contains m)
        | none => false) then
      (st, Resp.badRequest "Invalid method")
    else if (match p.amountBase with
        | some b => decide (b < 0)
        | none => false) then
      (st, Resp.badRequest "Invalid amountBase")
    else if (match p.amountFinal with
        | some f => decide (f < 0)
        | none => false) then
      (st, Resp.badRequest "Invalid amountFinal")
    else
      let updated := applyUpdate entry p
      if entryValid updated then
        let oldDelta := coinEffect entry.type entry.amountFinal
        let games1 := if oldDelta ≠ 0 then
            applyGameDelta st.games entry.gameName (-oldDelta)
          else st.games
        let newDelta := coinEffect updated.type updated.amountFinal
        let games2 := if newDelta ≠ 0 then
            applyGameDelta games1 updated.gameName newDelta
          else games1
        ({ entries := st.entries.map (fun e =>
             if e.eid == id then updated else e)
           nextId := st.nextId
           games := games2
           hist := recordHistory st.hist histOk updated "update" },
         Resp.okEntry 200 updated)
      else (st, Resp.serverError "Failed to update game entry")

/-- `DELETE /api/game-entries/:id` (UserALLCashout.tsx:1413-1436): load,
reverse the coin effect, record a `delete` history action, remove the row. -/
def deleteEntry (st : Store) (id : Nat) (histOk : Bool) : Store × Resp :=
  match st.entries.find? (fun e => e.eid == id) with
  | none => (st, Resp.notFound "Game entry not found")
  | some entry =>
    let delta := coinEffect entry.type entry.amountFinal
    let games1 := if delta ≠ 0 then
        applyGameDelta st.games entry.gameName (-delta)
      else st.games
    ({ entries := st.entries.filter (fun e => !(e.eid == id))
       nextId := st.nextId
       games := games1
       hist := recordHistory st.hist histOk entry "delete" },
     Resp.okDeleted)

/-- The field zeroing of `PATCH /:id/clear-pending` (UserALLCashout.tsx:855-868):
redeem zeroes `remainingPay`; deposit zeroes `reduction`; anything else
zeroes both; `isPending` is always cleared. -/
def clearFields (e : Entry) : Entry :=
  if e.type = EType.redeem then
    { e with remainingPay := some 0, isPending := false }
  else if e.type = EType.deposit then
    { e with reduction := some 0, isPending := false }
  else
    { e with remainingPay := some 0, reduction := some 0, isPending := false }

/-- `PATCH /api/game-entries/:id/clear-pending` (UserALLCashout.tsx:844-880):
load, zero the pending fields, save, record a `clear-pending` history
action.  `amountFinal` is untouched and no game delta is applied. -/
def clearPendingOp (st : Store) (id : Nat) (histOk : Bool) : Store × Resp :=
  match st.entries.find? (fun e => e.eid == id) with
  | none => (st, Resp.notFound "Game entry not found")
  | some entry =>
    let cleared := clearFields entry
    if entryValid cleared then
      ({ entries := st.entries.map (fun e =>
           if e.eid == id then cleared else e)
         nextId := st.nextId
         games := st.games
         hist := recordHistory st.hist histOk cleared "clear-pending" },
       Resp.okEntry 200 cleared)
    else (st, Resp.serverError "Failed to clear pending for this entry")

/-- A mutating request to the ledger (§6 of the spec): the history outcome
is supplied separately so one request can be replayed under both history
outcomes. -/
inductive OpReq where
  | create (inp : CreateInput)
  | update (id : Nat) (p : UpdatePayload)
  | delete (id : Nat)
  | clearPending (id : Nat)
deriving Repr

/-- Dispatch one request. -/
def stepOp (histOk : Bool) (st : Store) : OpReq → Store × Resp
  | OpReq.create inp => createEntry st inp histOk
  | OpReq.update id p => updateEntry st id p histOk
  | OpReq.delete id => deleteEntry st id histOk
  | OpReq.clearPending id => clearPendingOp st id histOk

/-- Run a sequence of requests, each with its own history outcome. -/
def runOps (st : Store) : List (OpReq × Bool) → Store
  | [] => st
  | (req, histOk) :: rest => runOps (stepOp histOk st req).1 rest

/-- An initial deployment: no entries, no history, and one `Game` row per
registered name with the schema default `totalCoins = 0`. -/
def initStore (gameNames : List String) : Store :=
  { entries := []
    nextId := 0
    games := gameNames.map (fun n => (n, 0))
    hist := [] }

/-- The `tagMap` key of `GET /pending` and of the summary pending section:
the template string `` `${e.username}::${e.playerTag || ""}` ``.
`playerTag` has schema default `""`, under which `|| ""` collapses. -/
def tagKey (e : Entry) : String := e.username ++ "::" ++ e.playerTag

/-- One `tagMap` group: the latest redeem row seen (regardless of
`isPending`) and the latest deposit row seen (even with `reduction = 0`). -/
structure Group where
  lastRedeem : Option Entry
  lastDeposit : Option Entry
deriving DecidableEq, Repr

/-- The body of the grouping loop (UserALLCashout.tsx:672-678): a redeem
overwrites `lastRedeem`, a deposit overwrites `lastDeposit`. -/
def groupAdd (g : Group) (e : Entry) : Group :=
  if e.type = EType.redeem then { g with lastRedeem := some e }
  else if e.type = EType.deposit then { g with lastDeposit := some e }
  else g

/-- One iteration of the grouping loop: fetch or create the group for the
key (a JS `Map` preserves insertion order, modelled as an association list),
then add the document to it. -/
def mapUpdate : List (String × Group) → String → Entry → List (String × Group)
  | [], k, e => [(k, groupAdd ⟨none, none⟩ e)]
  | (k', g) :: rest, k, e =>
    if k' = k then (k', groupAdd g e) :: rest
    else (k', g) :: mapUpdate rest k e

/-- The grouping loop of `GET /pending` (UserALLCashout.tsx:662-679) over
documents in `createdAt` ascending order. -/
def buildTagMap (docs : List Entry) : List (String × Group) :=
  docs.foldl (fun m e => mapUpdate m (tagKey e) e) []

/-- One row of the `GET /pending` response.  The `date`/`createdAt` echo
fields (pure timestamp formatting of the base document) are omitted. -/
structure PendingRow where
  rid : Nat
  type : EType
  username : String
  playerName : String
  playerTag : String
  gameName : String
  method : String
  totalPaid : ℤ
  totalCashout : ℤ
  remainingPay : ℤ
  reduction : ℤ
deriving DecidableEq, Repr

/-- Per-group resolution of `GET /pending` (UserALLCashout.tsx:683-716):
a deposit, when present, is the source of truth and contributes its
`reduction` (`toNumber(_, 0)`); otherwise a redeem with `isPending` set
contributes `remainingPay ?? (totalCashout ?? amountFinal ?? 0) − totalPaid`.
Returns the base document, the resolved amount, and the reduction component
(`amountFinal` is schema-required, so its `?? 0` tail is dead). -/
def resolveGroup (g : Group) : Option (Entry × ℤ × ℤ) :=
  match g.lastDeposit with
  | some d => some (d, d.reduction.getD 0, d.reduction.getD 0)
  | none =>
    match g.lastRedeem with
    | some r =>
      if r.isPending then
        let totalPaid := r.totalPaid.getD 0
        let totalCashout := r.totalCashout.getD r.amountFinal
        some (r, r.remainingPay.getD (totalCashout - totalPaid), 0)
      else none
    | none => none

/-- Build the response row for one group, dropping it when nothing resolved
or the resolved amount is not positive (UserALLCashout.tsx:713-745). -/
def rowOfGroup (g : Group) : Option PendingRow :=
  match resolveGroup g with
  | none => none
  | some (baseDoc, totalPending, pendingReduction) =>
    if totalPending ≤ 0 then none
    else some
      { rid := baseDoc.eid
        type := baseDoc.type
        username := baseDoc.username
        playerName := baseDoc.playerName
        playerTag := baseDoc.playerTag
        gameName := baseDoc.gameName
        method := baseDoc.method.getD ""
        totalPaid := baseDoc.totalPaid.getD 0
        totalCashout := baseDoc.totalCashout.getD baseDoc.amountFinal
        remainingPay := totalPending
        reduction := pendingReduction }

/-- The resolution half of `GET /pending`, shared verbatim with the pending
section of `GET /summary` (UserALLCashout.tsx:1041-1120): group the
documents, resolve every group in insertion order. -/
def pendingRows (docs : List Entry) : List PendingRow :=
  (buildTagMap docs).filterMap (fun kg => rowOfGroup kg.2)

/-- The Mongo match of `GET /pending`: all redeem and deposit rows,
optionally filtered by the trimmed username. -/
def pendingMatch (username : Option String) (entries : List Entry) :
    List Entry :=
  let uf := jsTrim (username.getD "")
  entries.filter (fun e =>
    (e.type == EType.redeem || e.type == EType.deposit) &&
    (uf == "" || e.username == uf))

/-- `GET /api/game-entries/pending` (UserALLCashout.tsx:645-755): matched
rows oldest first, then grouped and resolved. -/
def listPending (username : Option String) (entries : List Entry) :
    List PendingRow :=
  pendingRows (pendingMatch username entries)

/-- The response of `GET /pending-by-tag`. -/
inductive TagLookup where
  | badRequest
  | notFound
  | found (playerTag : String) (totalPending pendingRedeem pendingReduction
      totalCashout totalPaid : ℤ)
deriving DecidableEq, Repr

/-- The qualifying condition of the `GET /pending-by-tag` Mongo match
(UserALLCashout.tsx:776-783): a pending redeem, or a deposit whose
`reduction` is a number greater than zero (a Mongo `$gt: 0` only matches a
present numeric value, which coincides with `toNumber(e.reduction, 0) > 0`). -/
def byTagQualifies (e : Entry) : Bool :=
  (e.type == EType.redeem && e.isPending) ||
  (e.type == EType.deposit && decide (0 < e.reduction.getD 0))

/-- The scanning loop of `GET /pending-by-tag` (UserALLCashout.tsx:790-799):
last qualifying deposit wins `lastDeposit`, last pending redeem wins
`lastRedeem`. -/
def byTagLoop (docs : List Entry) (acc : Option Entry × Option Entry) :
    Option Entry × Option Entry :=
  docs.foldl (fun acc e =>
    if e.type == EType.deposit && decide (0 < e.reduction.getD 0) then
      (acc.1, some e)
    else if e.type == EType.redeem && e.isPending then (some e, acc.2)
    else acc) acc

/-- `GET /api/game-entries/pending-by-tag` (UserALLCashout.tsx:763-836):
requires a non-empty trimmed `playerTag` and `username`; matches only
qualifying rows of that exact pair; 404 when none match or when the
resolved amount is not positive.  Unlike `GET /pending`, the redeem
fallback here is `totalCashout ?? 0` (no `amountFinal` step). -/
def lookupPendingByTag (playerTag username : Option String)
    (entries : List Entry) : TagLookup :=
  let cleanTag := jsTrim (playerTag.getD "")
  let cleanUser := jsTrim (username.getD "")
  if cleanTag = "" || cleanUser = "" then TagLookup.badRequest
  else
    let docs := entries.filter (fun e =>
      e.username == cleanUser && e.playerTag == cleanTag && byTagQualifies e)
    if docs.isEmpty then TagLookup.notFound
    else
      match byTagLoop docs (none, none) with
      | (lastRedeem, lastDeposit) =>
        match lastDeposit with
        | some d =>
          let pendingReduction := d.reduction.getD 0
          if pendingReduction ≤ 0 then TagLookup.notFound
          else TagLookup.found cleanTag pendingReduction 0 pendingReduction
            (d.totalCashout.getD 0) (d.totalPaid.getD 0)
        | none =>
          match lastRedeem with
          | some r =>
            let cashout := r.totalCashout.getD 0
            let paid := r.totalPaid.getD 0
            let pendingRedeem := r.remainingPay.getD (cashout - paid)
            if pendingRedeem ≤ 0 then TagLookup.notFound
            else TagLookup.found cleanTag pendingRedeem pendingRedeem 0
              cashout paid
          | none => TagLookup.notFound

/-- The `$ifNull` amount of the `byType` aggregation of `GET /summary`
(UserALLCashout.tsx:982-1003): deposits use `amountFinal ?? 0`, other kinds
`amountFinal ?? amount ?? 0`.  `amountFinal` is schema-required, so both
branches collapse to `amountFinal`. -/
def byTypeAmount (e : Entry) : ℤ := e.amountFinal

/-- The `$group: {_id: "$type", totalAmount: {$sum: ...}}` stage: fold the
matched documents into per-kind running sums (an association list keyed by
kind, insertion order, like the aggregation output). -/
def byTypeAdd : List (EType × ℤ) → Entry → List (EType × ℤ)
  | [], e => [(e.type, byTypeAmount e)]
  | (t, s) :: rest, e =>
    if t = e.type then (t, s + byTypeAmount e) :: rest
    else (t, s) :: byTypeAdd rest e

/-- See `byTypeAdd`. -/
def byType (docs : List Entry) : List (EType × ℤ) :=
  docs.foldl byTypeAdd []

/-- `t.totalAmount || 0` extraction loop (UserALLCashout.tsx:1010-1015). -/
def typeTotal (docs : List Entry) (t : EType) : ℤ :=
  (((byType docs).find? (fun ts => ts.1 == t)).map (fun ts => ts.2)).getD 0

/-- The summary report of `GET /summary` (the fields the claims observe;
the `date`/`createdAt` echoes inside `pendingEntries` are omitted as in
`PendingRow`). -/
structure Summary where
  totalFreeplay : ℤ
  totalPlayedGame : ℤ
  totalDeposit : ℤ
  totalRedeem : ℤ
  totalCoin : ℤ
  totalPendingRemainingPay : ℤ
  totalPendingCount : Nat
  pendingEntries : List PendingRow
  totalReduction : ℤ
  totalExtraMoney : ℤ
deriving DecidableEq, Repr

/-- `GET /api/game-entries/summary` (UserALLCashout.tsx:900-1193) for an
arbitrary match predicate `scope` (the username/period/year-month-day match
object; its date arithmetic is orthogonal to the aggregation and is
abstracted as the predicate).  The pending section reuses the `GET /pending`
logic on `scope`-matched redeem/deposit rows. -/
def summarize (scope : Entry → Bool) (entries : List Entry) : Summary :=
  let matched := entries.filter scope
  let totalFreeplay := typeTotal matched EType.freeplay
  let totalPlayedGame := typeTotal matched EType.playedgame
  let totalDeposit := typeTotal matched EType.deposit
  let totalRedeem := typeTotal matched EType.redeem
  let pend := pendingRows (entries.filter (fun e =>
    scope e && (e.type == EType.redeem || e.type == EType.deposit)))
  { totalFreeplay := totalFreeplay
    totalPlayedGame := totalPlayedGame
    totalDeposit := totalDeposit
    totalRedeem := totalRedeem
    totalCoin := totalRedeem - (totalFreeplay + totalPlayedGame + totalDeposit)
    totalPendingRemainingPay := (pend.map (fun r => r.remainingPay)).sum
    totalPendingCount := pend.length
    pendingEntries := pend
    totalReduction := (matched.map (fun e => e.reduction.getD 0)).sum
    totalExtraMoney := (matched.map (fun e => e.extraMoney.getD 0)).sum }

/-! ## Game-balance bookkeeping lemmas -/

/-- The signed contribution of one entry to the balance of game `n`. -/
def contrib (n : String) (e : Entry) : ℤ :=
  if e.gameName = n then coinEffect e.type e.amountFinal else 0

/-- The sum of `coinEffect(kind, amountFinal)` over the existing entries of
game `n` — the value `GameBalance.totalCoins` is supposed to materialize. -/
def sumEffects (n : String) (entries : List Entry) : ℤ :=
  ((entries.filter (fun e => e.gameName == n)).map
    (fun e => coinEffect e.type e.amountFinal)).sum

/-- The state is well formed: distinct fresh ids, trimmed non-empty game
names on stored entries, and every `Game` row materializes the sum of the
coin effects of the existing entries of its game (spec §3, `GameBalance`). -/
def Inv (st : Store) : Prop :=
  (st.entries.map Entry.eid).Nodup ∧
  (∀ e ∈ st.entries, e.eid < st.nextId) ∧
  (∀ e ∈ st.entries, jsTrim e.gameName = e.gameName ∧ e.gameName ≠ "") ∧
  (∀ n c, getCoins st.games n = some c → c = sumEffects n st.entries)

/-- A deposit request used as a concrete instance: 100 coins on game `X`. -/
def c1inpDeposit : CreateInput :=
  { username := some "alice", createdBy := some "op", type := some EType.deposit
    method := some "cashapp", playerName := none, playerTag := none
    gameName := some "X", amountBase := some 100, amount := none
    bonusRate := none, bonusAmount := none, amountFinal := some 100
    date := none, note := none, totalPaid := none, totalCashout := none
    remainingPay := none, extraMoney := none, reduction := none
    isPending := false }

/-- A redeem request used as a concrete instance: 40 coins on game `X`. -/
def c1inpRedeem : CreateInput :=
  { username := some "alice", createdBy := some "op", type := some EType.redeem
    method := some "paypal", playerName := none, playerTag := none
    gameName := some "X", amountBase := some 40, amount := none
    bonusRate := none, bonusAmount := none, amountFinal := some 40
    date := none, note := none, totalPaid := none, totalCashout := none
    remainingPay := none, extraMoney := none, reduction := none
    isPending := false }

/-- The concrete request sequence of the §8 example scenario. -/
def c1ops : List (OpReq × Bool) :=
  [(OpReq.create c1inpDeposit, true), (OpReq.create c1inpRedeem, true)]

/-- The components of a route result that the caller and the ledger state
observe: everything except the history log. -/
def obs (r : Store × Resp) : (List Entry × Games × Nat) × Resp :=
  ((r.1.entries, r.1.games, r.1.nextId), r.2)

/-- One stored redeem entry used as a concrete instance for clear-pending. -/
def c6entry : Entry :=
  { eid := 0, username := "alice", createdBy := "op", type := EType.redeem
    method := some "cashapp", playerName := "", playerTag := "tag1"
    gameName := "X", amountBase := 30, amount := some 30, bonusRate := 0
    bonusAmount := 0, amountFinal := 30, note := "", date := none
    totalPaid := some 10, totalCashout := some 60, remainingPay := some 50
    isPending := true, extraMoney := some 0, reduction := some 0 }

/-- A one-entry store for the clear-pending instance. -/
def c6store : Store :=
  { entries := [c6entry], nextId := 1, games := [("X", -30)], hist := [] }

/-- The pre-existing player-tag deposit row used by the merge instances. -/
def c2existing : Entry :=
  { eid := 0, username := "alice", createdBy := "op", type := EType.deposit
    method := some "cashapp", playerName := "P1", playerTag := "tag9"
    gameName := "A", amountBase := 30, amount := some 30, bonusRate := 0
    bonusAmount := 0, amountFinal := 30, note := "", date := none
    totalPaid := some 0, totalCashout := some 100, remainingPay := some 0
    isPending := true, extraMoney := some 0, reduction := some 70 }

/-- A store holding just the pre-existing deposit and two game rows. -/
def c2store : Store :=
  { entries := [c2existing], nextId := 1
    games := [("A", -30), ("B", 0)], hist := [] }

/-- A second deposit for the same (username, playerTag) with a positive
caller reduction, submitted against game `B`. -/
def c2inp : CreateInput :=
  { username := some "alice", createdBy := some "op"
    type := some EType.deposit, method := some "paypal"
    playerName := none, playerTag := some "tag9", gameName := some "B"
    amountBase := some 25, amount := none, bonusRate := none
    bonusAmount := none, amountFinal := some 25, date := none, note := none
    totalPaid := none, totalCashout := some 100, remainingPay := none
    extraMoney := none, reduction := some 45, isPending := false }

/-- A no-tag deposit carrying `reduction = 0` together with
`isPending = true`: raw pending inputs that a recomputation would reject. -/
def c9inp : CreateInput :=
  { username := some "alice", createdBy := some "op"
    type := some EType.deposit, method := some "chime"
    playerName := none, playerTag := none, gameName := some "X"
    amountBase := some 10, amount := none, bonusRate := none
    bonusAmount := none, amountFinal := some 10, date := none, note := none
    totalPaid := none, totalCashout := none, remainingPay := none
    extraMoney := none, reduction := some 0, isPending := true }

/-! ## Characterizing the pending resolver -/

/-- The tag-map keys in first-occurrence order (a JS `Map` iterates in
insertion order). -/
def tagKeysFirst (docs : List Entry) : List String :=
  docs.foldl (fun ks e => if tagKey e ∈ ks then ks else ks ++ [tagKey e]) []

/-- The group the loop ends up with for key `k`: the last matching redeem
and the last matching deposit. -/
def groupOf (docs : List Entry) (k : String) : Group :=
  { lastRedeem := (docs.filter (fun e =>
      tagKey e == k && e.type == EType.redeem)).getLast?
    lastDeposit := (docs.filter (fun e =>
      tagKey e == k && e.type == EType.deposit)).getLast? }

/-- The claim's per-group resolution, written declaratively from its words:
a latest deposit resolves to its `reduction` (kept only when positive), else
a latest redeem with `isPending` resolves to `remainingPay` with fallback
`totalCashout − totalPaid`, kept only when positive. -/
def specGroupRow (lastDeposit lastRedeem : Option Entry) :
    Option PendingRow :=
  match lastDeposit with
  | some d =>
    let amount := d.reduction.getD 0
    if 0 < amount then
      some { rid := d.eid, type := d.type, username := d.username
             playerName := d.playerName, playerTag := d.playerTag
             gameName := d.gameName, method := d.method.getD ""
             totalPaid := d.totalPaid.getD 0
             totalCashout := d.totalCashout.getD d.amountFinal
             remainingPay := amount, reduction := amount }
    else none
  | none =>
    match lastRedeem with
    | some r =>
      if r.isPending then
        let amount := r.remainingPay.getD
          (r.totalCashout.getD r.amountFinal - r.totalPaid.getD 0)
        if 0 < amount then
          some { rid := r.eid, type := r.type, username := r.username
                 playerName := r.playerName, playerTag := r.playerTag
                 gameName := r.gameName, method := r.method.getD ""
                 totalPaid := r.totalPaid.getD 0
                 totalCashout := r.totalCashout.getD r.amountFinal
                 remainingPay := amount, reduction := 0 }
        else none
      else none
    | none => none

/-- Formalisation of C3's grouping exactly as the claim states it: by the
PAIR (username, playerTag), latest-wins, with the same resolution rule.
Compared below against the implementation's string-key grouping. -/
def pairKeysFirst (docs : List Entry) : List (String × String) :=
  docs.foldl (fun ks e => if (e.username, e.playerTag) ∈ ks then ks
    else ks ++ [(e.username, e.playerTag)]) []

/-- See `pairKeysFirst`. -/
def specPairPending (docs : List Entry) : List PendingRow :=
  (pairKeysFirst docs).filterMap (fun k =>
    specGroupRow
      ((docs.filter (fun e =>
        (e.username, e.playerTag) == k && e.type == EType.deposit)).getLast?)
      ((docs.filter (fun e =>
        (e.username, e.playerTag) == k && e.type == EType.redeem)).getLast?))

/-- A pending redeem whose owner's username itself contains `"::"`. -/
def c3redeem : Entry :=
  { eid := 0, username := "a::b", createdBy := "op", type := EType.redeem
    method := some "cashapp", playerName := "", playerTag := ""
    gameName := "X", amountBase := 50, amount := some 50, bonusRate := 0
    bonusAmount := 0, amountFinal := 50, note := "", date := none
    totalPaid := some 0, totalCashout := some 50, remainingPay := some 50
    isPending := true, extraMoney := some 0, reduction := some 0 }

/-- A later deposit of a different pair whose string key collides with
`c3redeem`'s: `"a" ++ "::" ++ "b::" = "a::b" ++ "::" ++ ""`. -/
def c3deposit : Entry :=
  { eid := 1, username := "a", createdBy := "op", type := EType.deposit
    method := some "paypal", playerName := "", playerTag := "b::"
    gameName := "X", amountBase := 10, amount := some 10, bonusRate := 0
    bonusAmount := 0, amountFinal := 10, note := "", date := none
    totalPaid := some 0, totalCashout := some 0, remainingPay := some 0
    isPending := false, extraMoney := some 0, reduction := some 0 }

/-- The collision instance for C3. -/
def c3docs : List Entry := [c3redeem, c3deposit]

/-- A pending redeem and a later reduction-0 deposit for the SAME pair,
the claim's "in particular" scenario. -/
def c3sRedeem : Entry :=
  { eid := 0, username := "alice", createdBy := "op", type := EType.redeem
    method := some "cashapp", playerName := "", playerTag := "t7"
    gameName := "X", amountBase := 50, amount := some 50, bonusRate := 0
    bonusAmount := 0, amountFinal := 50, note := "", date := none
    totalPaid := some 0, totalCashout := some 50, remainingPay := some 50
    isPending := true, extraMoney := some 0, reduction := some 0 }

/-- See `c3sRedeem`. -/
def c3sDeposit : Entry :=
  { eid := 1, username := "alice", createdBy := "op", type := EType.deposit
    method := some "paypal", playerName := "", playerTag := "t7"
    gameName := "X", amountBase := 10, amount := some 10, bonusRate := 0
    bonusAmount := 0, amountFinal := 10, note := "", date := none
    totalPaid := some 0, totalCashout := some 0, remainingPay := some 0
    isPending := false, extraMoney := some 0, reduction := some 0 }

/-- The string key a response row descends from. -/
def keyRow (r : PendingRow) : String := r.username ++ "::" ++ r.playerTag

/-- A redeem with no player tag, pending 50. -/
def c10redeem : Entry :=
  { eid := 0, username := "alice", createdBy := "op", type := EType.redeem
    method := some "venmo", playerName := "", playerTag := ""
    gameName := "X", amountBase := 50, amount := some 50, bonusRate := 0
    bonusAmount := 0, amountFinal := 50, note := "", date := none
    totalPaid := some 0, totalCashout := some 50, remainingPay := some 50
    isPending := true, extraMoney := some 0, reduction := some 0 }

/-- The behaviour of `GET /pending-by-tag` written declaratively from its
code: among the rows of the exact `(username, playerTag)` pair it considers
ONLY the qualifying ones — pending redeems and deposits whose `reduction` is
positive.  The latest qualifying deposit wins and is always reported (its
reduction is positive by construction); otherwise the latest pending redeem
is reported when its resolved amount is positive; otherwise 404.  A deposit
with `reduction = 0` is invisible here, unlike in `GET /pending`. -/
def specByTagAmended (playerTag username : Option String)
    (entries : List Entry) : TagLookup :=
  let cleanTag := jsTrim (playerTag.getD "")
  let cleanUser := jsTrim (username.getD "")
  if cleanTag = "" || cleanUser = "" then TagLookup.badRequest
  else
    let pairDocs := entries.filter (fun e =>
      e.username == cleanUser && e.playerTag == cleanTag)
    match (pairDocs.filter (fun e =>
        e.type == EType.deposit
          && decide (0 < e.reduction.getD 0))).getLast? with
    | some d =>
      TagLookup.found cleanTag (d.reduction.getD 0) 0 (d.reduction.getD 0)
        (d.totalCashout.getD 0) (d.totalPaid.getD 0)
    | none =>
      match (pairDocs.filter (fun e =>
          e.type == EType.redeem && e.isPending)).getLast? with
      | some r =>
        let cashout := r.totalCashout.getD 0
        let paid := r.totalPaid.getD 0
        let pendingRedeem := r.remainingPay.getD (cashout - paid)
        if pendingRedeem ≤ 0 then TagLookup.notFound
        else TagLookup.found cleanTag pendingRedeem pendingRedeem 0
          cashout paid
      | none => TagLookup.notFound

/-- A pending redeem of 50 for the pair `("u", "t")`. -/
def c4redeem : Entry :=
  { eid := 0, username := "u", createdBy := "op", type := EType.redeem
    method := some "venmo", playerName := "", playerTag := "t"
    gameName := "X", amountBase := 50, amount := some 50, bonusRate := 0
    bonusAmount := 0, amountFinal := 50, note := "", date := none
    totalPaid := some 0, totalCashout := some 50, remainingPay := some 50
    isPending := true, extraMoney := some 0, reduction := some 0 }

/-- A LATER deposit for the same pair with `reduction = 0`. -/
def c4deposit : Entry :=
  { eid := 1, username := "u", createdBy := "op", type := EType.deposit
    method := some "cashapp", playerName := "", playerTag := "t"
    gameName := "X", amountBase := 40, amount := some 40, bonusRate := 0
    bonusAmount := 0, amountFinal := 40, note := "", date := none
    totalPaid := some 0, totalCashout := some 40, remainingPay := some 0
    isPending := false, extraMoney := some 0, reduction := some 0 }

/-- A freeplay of 20, for the C5 example scenario. -/
def c5freeplay : Entry :=
  { eid := 0, username := "u", createdBy := "op", type := EType.freeplay
    method := none, playerName := "", playerTag := ""
    gameName := "X", amountBase := 20, amount := some 20, bonusRate := 0
    bonusAmount := 0, amountFinal := 20, note := "", date := none
    totalPaid := some 0, totalCashout := some 0, remainingPay := some 0
    isPending := false, extraMoney := some 0, reduction := some 0 }

/-- A redeem of 5, for the C5 example scenario. -/
def c5redeem : Entry :=
  { eid := 1, username := "u", createdBy := "op", type := EType.redeem
    method := some "venmo", playerName := "", playerTag := ""
    gameName := "X", amountBase := 5, amount := some 5, bonusRate := 0
    bonusAmount := 0, amountFinal := 5, note := "", date := none
    totalPaid := some 0, totalCashout := some 0, remainingPay := some 0
    isPending := false, extraMoney := some 0, reduction := some 0 }

/-! ## Theorems -/

theorem dropWhile_rdropWhile {α} (p : α → Bool) (m : List α) (hm : m.dropWhile p = m) :
    (m.rdropWhile p).dropWhile p = m.rdropWhile p := by
  have hpre := List.rdropWhile_prefix (p := p) (l := m)
  obtain ⟨t, ht⟩ := hpre
  cases hr : m.rdropWhile p with
  | nil => simp
  | cons y ys =>
    rw [hr] at ht
    cases m with
    | nil => simp at ht
    | cons x xs =>
      have hx : ¬ p x := by
        have := List.dropWhile_eq_self_iff.mp hm (by simp)
        simpa using this
      have hyx : y = x := by
        have : y :: (ys ++ t) = x :: xs := by simpa using ht
        exact (List.cons.injEq _ _ _ _ ▸ this).1
      subst hyx
      simp [List.dropWhile_cons_of_neg hx]

theorem jsTrim_idem (s : String) : jsTrim (jsTrim s) = jsTrim s := by
  show (⟨_⟩ : String) = ⟨_⟩
  congr 1
  rw [show (jsTrim s).data
        = (s.data.dropWhile Char.isWhitespace).rdropWhile Char.isWhitespace from rfl]
  rw [dropWhile_rdropWhile _ _ (List.dropWhile_idempotent _ _)]
  exact List.rdropWhile_idempotent _ _

theorem sumEffects_nil (n : String) : sumEffects n [] = 0 := rfl

theorem sumEffects_cons (n : String) (x : Entry) (l : List Entry) :
    sumEffects n (x :: l) = contrib n x + sumEffects n l := by
  unfold sumEffects contrib
  by_cases h : x.gameName = n
  · simp [List.filter_cons, h]
  · simp [List.filter_cons, h]

theorem sumEffects_append (n : String) (l₁ l₂ : List Entry) :
    sumEffects n (l₁ ++ l₂) = sumEffects n l₁ + sumEffects n l₂ := by
  induction l₁ with
  | nil => simp [sumEffects_nil, sumEffects]
  | cons x xs ih => simp [sumEffects_cons, ih]; ring

theorem getCoins_cons (g : String × ℤ) (rest : Games) (n : String) :
    getCoins (g :: rest) n = if g.1 = n then some g.2 else getCoins rest n := by
  by_cases h : g.1 = n
  · simp [getCoins, List.find?_cons_of_pos _ (by simpa using h : ((fun x => x.1 == n) g) = true), h]
  · simp [getCoins, List.find?_cons_of_neg _ (by simpa using h : ¬ ((fun x => x.1 == n) g) = true), h]

theorem getCoins_updateFirstGame (gs : Games) (name : String) (δ : ℤ)
    (n : String) :
    getCoins (updateFirstGame name δ gs) n =
      if n = name then (getCoins gs n).map (fun c => c + δ) else getCoins gs n := by
  induction gs with
  | nil => simp [updateFirstGame, getCoins]
  | cons g rest ih =>
    by_cases hg : g.1 = name
    · rw [show updateFirstGame name δ (g :: rest) = (g.1, g.2 + δ) :: rest by
        simp [updateFirstGame, hg]]
      by_cases hn : g.1 = n
      · have hnn : n = name := hn ▸ hg
        simp [getCoins_cons, hn, hnn]
      · have hnn : ¬ n = name := fun h => hn (hg.trans h.symm)
        simp [getCoins_cons, hn, hnn]
    · rw [show updateFirstGame name δ (g :: rest) = g :: updateFirstGame name δ rest by
        simp [updateFirstGame, hg]]
      by_cases hn : g.1 = n
      · have hnn : ¬ n = name := fun h => hg (hn ▸ h)
        simp [getCoins_cons, hn, hnn]
      · simp [getCoins_cons, hn, ih]

theorem getCoins_applyGameDelta (gs : Games) (raw : String) (δ : ℤ)
    (n : String) :
    getCoins (applyGameDelta gs raw δ) n =
      if n = jsTrim raw ∧ jsTrim raw ≠ "" then (getCoins gs n).map (fun c => c + δ)
      else getCoins gs n := by
  unfold applyGameDelta
  by_cases h : jsTrim raw = ""
  · simp [h]
  · simp only [h, if_false]
    rw [getCoins_updateFirstGame]
    by_cases hn : n = jsTrim raw
    · simp [hn, h]
    · simp [hn, h]

theorem updateFirstGame_zero (name : String) (gs : Games) :
    updateFirstGame name 0 gs = gs := by
  induction gs with
  | nil => rfl
  | cons g rest ih =>
    obtain ⟨a, b⟩ := g
    by_cases hg : a = name
    · simp [updateFirstGame, hg]
    · simp [updateFirstGame, hg, ih]

theorem applyGameDelta_zero (gs : Games) (raw : String) :
    applyGameDelta gs raw 0 = gs := by
  unfold applyGameDelta
  by_cases h : jsTrim raw = ""
  · simp [h]
  · simp [h, updateFirstGame_zero]

/-- The `if (delta !== 0)` guards around `applyGameDelta` calls are
semantically transparent. -/
theorem ite_applyGameDelta (gs : Games) (raw : String) (δ : ℤ) :
    (if δ ≠ 0 then applyGameDelta gs raw δ else gs) = applyGameDelta gs raw δ := by
  by_cases h : δ = 0
  · simp [h, applyGameDelta_zero]
  · simp [h]

theorem sumEffects_replace (n : String) (entries : List Entry) (i : Nat)
    (entry m : Entry)
    (hf : entries.find? (fun e => e.eid == i) = some entry)
    (hnd : (entries.map Entry.eid).Nodup) :
    sumEffects n (entries.map (fun e => if e.eid == i then m else e)) =
      sumEffects n entries - contrib n entry + contrib n m := by
  induction entries with
  | nil => simp at hf
  | cons x xs ih =>
    by_cases hx : (x.eid == i) = true
    · have hentry : entry = x := by
        simp only [List.find?_cons, hx] at hf
        exact (Option.some_inj.mp hf).symm
      subst hentry
      have hxid : entry.eid = i := by simpa using hx
      have hrest : ∀ y ∈ xs, ¬ (y.eid == i) = true := by
        intro y hy hyx
        have h1 : y.eid = i := by simpa using hyx
        have hmem : entry.eid ∈ xs.map Entry.eid := by
          rw [hxid, ← h1]
          exact List.mem_map_of_mem _ hy
        exact (List.nodup_cons.mp hnd).1 hmem
      have hmap : xs.map (fun e => if e.eid == i then m else e) = xs := by
        rw [show xs.map (fun e => if e.eid == i then m else e) = xs.map id from
          List.map_congr_left (fun y hy => by simp [hrest y hy])]
        exact List.map_id xs
      rw [show (entry :: xs).map (fun e => if e.eid == i then m else e)
            = m :: xs.map (fun e => if e.eid == i then m else e) from by
          rw [List.map_cons, if_pos hx]]
      rw [hmap, sumEffects_cons, sumEffects_cons]
      ring
    · have hx' : (x.eid == i) = false := by simpa using hx
      rw [show (x :: xs).find? (fun e => e.eid == i)
            = xs.find? (fun e => e.eid == i) from by
          simp [List.find?_cons, hx']] at hf
      have hnd' : (xs.map Entry.eid).Nodup := (List.nodup_cons.mp hnd).2
      rw [show (x :: xs).map (fun e => if e.eid == i then m else e)
            = x :: xs.map (fun e => if e.eid == i then m else e) from by
          rw [List.map_cons, if_neg hx]]
      rw [sumEffects_cons, sumEffects_cons, ih hf hnd']
      ring

theorem sumEffects_erase (n : String) (entries : List Entry) (i : Nat)
    (entry : Entry)
    (hf : entries.find? (fun e => e.eid == i) = some entry)
    (hnd : (entries.map Entry.eid).Nodup) :
    sumEffects n (entries.filter (fun e => !(e.eid == i))) =
      sumEffects n entries - contrib n entry := by
  induction entries with
  | nil => simp at hf
  | cons x xs ih =>
    by_cases hx : (x.eid == i) = true
    · have hentry : entry = x := by
        simp only [List.find?_cons, hx] at hf
        exact (Option.some_inj.mp hf).symm
      subst hentry
      have hxid : entry.eid = i := by simpa using hx
      have hrest : ∀ y ∈ xs, ¬ (y.eid == i) = true := by
        intro y hy hyx
        have h1 : y.eid = i := by simpa using hyx
        have hmem : entry.eid ∈ xs.map Entry.eid := by
          rw [hxid, ← h1]
          exact List.mem_map_of_mem _ hy
        exact (List.nodup_cons.mp hnd).1 hmem
      have hfil : xs.filter (fun e => !(e.eid == i)) = xs := by
        apply List.filter_eq_self.mpr
        intro y hy
        simp [hrest y hy]
      rw [show (entry :: xs).filter (fun e => !(e.eid == i))
            = xs.filter (fun e => !(e.eid == i)) from by
          simp [List.filter_cons, hx]]
      rw [hfil, sumEffects_cons]
      ring
    · have hx' : (x.eid == i) = false := by simpa using hx
      rw [show (x :: xs).find? (fun e => e.eid == i)
            = xs.find? (fun e => e.eid == i) from by
          simp [List.find?_cons, hx']] at hf
      have hnd' : (xs.map Entry.eid).Nodup := (List.nodup_cons.mp hnd).2
      rw [show (x :: xs).filter (fun e => !(e.eid == i))
            = x :: xs.filter (fun e => !(e.eid == i)) from by
          simp [List.filter_cons, hx']]
      rw [sumEffects_cons, sumEffects_cons, ih hf hnd']
      ring

/-! ## The balance invariant and its preservation -/

theorem mem_of_getLast?_eq_some {α} {l : List α} {a : α}
    (h : l.getLast? = some a) : a ∈ l := by
  obtain ⟨hne, heq⟩ := List.mem_getLast?_eq_getLast
    (show a ∈ l.getLast? by simp [h, Option.mem_def])
  exact heq ▸ List.getLast_mem hne

theorem find?_eid_of_mem (entries : List Entry) (e : Entry)
    (hnd : (entries.map Entry.eid).Nodup) (he : e ∈ entries) :
    entries.find? (fun x => x.eid == e.eid) = some e := by
  induction entries with
  | nil => simp at he
  | cons x xs ih =>
    rcases List.mem_cons.mp he with hx | hx
    · subst hx
      exact List.find?_cons_of_pos _ (by simp)
    · have hne : (x.eid == e.eid) = false := by
        by_contra hbeq
        have heq : x.eid = e.eid := by
          simpa using (Bool.not_eq_false _).mp hbeq
        exact (List.nodup_cons.mp hnd).1
          (heq ▸ List.mem_map_of_mem Entry.eid hx)
      rw [show (x :: xs).find? (fun y => y.eid == e.eid)
            = xs.find? (fun y => y.eid == e.eid) from by
          simp [List.find?_cons, hne]]
      exact ih (List.nodup_cons.mp hnd).2 hx

theorem entryValid_gameName {e : Entry} (h : entryValid e = true) :
    e.gameName ≠ "" := by
  unfold entryValid at h
  simp only [Bool.and_eq_true, decide_eq_true_eq, ne_eq] at h
  exact h.1.1.1.1.1.1.1.1.1.1.1.2

theorem mkNewDoc_gameName (nid : Nat) (inp : CreateInput) :
    (mkNewDoc nid inp).gameName = jsTrim (inp.gameName.getD "") := rfl

theorem mergeInto_eid (e : Entry) (inp : CreateInput) :
    (mergeInto e inp).eid = e.eid := rfl

theorem mergeInto_gameName (e : Entry) (inp : CreateInput) :
    (mergeInto e inp).gameName = e.gameName := rfl

theorem mergeInto_type (e : Entry) (inp : CreateInput) :
    (mergeInto e inp).type = e.type := rfl

theorem applyUpdate_eid (e : Entry) (p : UpdatePayload) :
    (applyUpdate e p).eid = e.eid := rfl

theorem applyUpdate_gameName (e : Entry) (p : UpdatePayload) :
    (applyUpdate e p).gameName =
      (match p.gameName with
       | some s => jsTrim s
       | none => e.gameName) := rfl

theorem clearFields_eid (e : Entry) : (clearFields e).eid = e.eid := by
  unfold clearFields
  split <;> try rfl
  split <;> rfl

theorem clearFields_gameName (e : Entry) :
    (clearFields e).gameName = e.gameName := by
  unfold clearFields
  split <;> try rfl
  split <;> rfl

theorem clearFields_type (e : Entry) : (clearFields e).type = e.type := by
  unfold clearFields
  split <;> try rfl
  split <;> rfl

theorem clearFields_amountFinal (e : Entry) :
    (clearFields e).amountFinal = e.amountFinal := by
  unfold clearFields
  split <;> try rfl
  split <;> rfl

/-- Replacing the entry `i` does not change the id multiset. -/
theorem map_eid_replace (entries : List Entry) (i : Nat) (m : Entry)
    (h : ∀ e ∈ entries, e.eid == i → e.eid = m.eid) :
    (entries.map (fun e => if e.eid == i then m else e)).map Entry.eid =
      entries.map Entry.eid := by
  rw [List.map_map]
  apply List.map_congr_left
  intro y hy
  by_cases hyi : (y.eid == i) = true
  · simp only [Function.comp_apply]
    rw [if_pos hyi]
    exact (h y hy hyi).symm
  · simp only [Function.comp_apply]
    rw [if_neg hyi]

theorem sumEffects_singleton (n : String) (e : Entry) :
    sumEffects n [e] = contrib n e := by
  rw [sumEffects_cons, sumEffects_nil, add_zero]

theorem Inv_createDefault (st : Store) (inp : CreateInput) (histOk : Bool)
    (hInv : Inv st) : Inv (createDefault st inp histOk).1 := by
  obtain ⟨hnd, hlt, htrim, hcoins⟩ := hInv
  unfold createDefault
  by_cases hv : entryValid (mkNewDoc st.nextId inp) = true
  · rw [if_pos hv]
    dsimp only
    have htr : jsTrim (mkNewDoc st.nextId inp).gameName
        = (mkNewDoc st.nextId inp).gameName := by
      rw [mkNewDoc_gameName]
      exact jsTrim_idem _
    have hgn : (mkNewDoc st.nextId inp).gameName ≠ "" := entryValid_gameName hv
    refine ⟨?_, ?_, ?_, ?_⟩
    · show ((st.entries ++ [mkNewDoc st.nextId inp]).map Entry.eid).Nodup
      rw [List.map_append]
      rw [List.nodup_append]
      refine ⟨hnd, List.nodup_singleton _, ?_⟩
      intro a ha hb
      simp only [List.map_cons, List.map_nil, List.mem_singleton] at hb
      obtain ⟨e, he, hae⟩ := List.mem_map.mp ha
      have : e.eid < st.nextId := hlt e he
      rw [hae] at this
      rw [hb] at this
      exact absurd this (by simp [mkNewDoc])
    · intro e he
      rcases List.mem_append.mp he with h1 | h1
      · exact Nat.lt_succ_of_lt (hlt e h1)
      · rw [List.mem_singleton.mp h1]
        exact Nat.lt_succ_self _
    · intro e he
      rcases List.mem_append.mp he with h1 | h1
      · exact htrim e h1
      · rw [List.mem_singleton.mp h1]
        exact ⟨htr, hgn⟩
    · intro n c hc
      rw [show (if coinEffect (mkNewDoc st.nextId inp).type
              (mkNewDoc st.nextId inp).amountFinal ≠ 0 then
            applyGameDelta st.games (mkNewDoc st.nextId inp).gameName
              (coinEffect (mkNewDoc st.nextId inp).type
                (mkNewDoc st.nextId inp).amountFinal)
          else st.games)
          = applyGameDelta st.games (mkNewDoc st.nextId inp).gameName
              (coinEffect (mkNewDoc st.nextId inp).type
                (mkNewDoc st.nextId inp).amountFinal) from
        ite_applyGameDelta _ _ _] at hc
      rw [getCoins_applyGameDelta] at hc
      rw [sumEffects_append, sumEffects_singleton]
      by_cases hcase : n = jsTrim (mkNewDoc st.nextId inp).gameName ∧
          jsTrim (mkNewDoc st.nextId inp).gameName ≠ ""
      · rw [if_pos hcase] at hc
        obtain ⟨c₀, hc₀, hcc⟩ := Option.map_eq_some'.mp hc
        rw [← hcc, hcoins n c₀ hc₀]
        have hn : (mkNewDoc st.nextId inp).gameName = n := by
          rw [← htr]
          exact hcase.1.symm
        rw [contrib, if_pos hn]
      · rw [if_neg hcase] at hc
        have hn : ¬ (mkNewDoc st.nextId inp).gameName = n := by
          intro h
          exact hcase ⟨by rw [htr, h], by rw [htr]; exact hgn⟩
        rw [contrib, if_neg hn, add_zero]
        exact hcoins n c hc
  · rw [if_neg hv]
    exact ⟨hnd, hlt, htrim, hcoins⟩

theorem Inv_merge (st : Store) (inp : CreateInput) (histOk : Bool)
    (existing : Entry) (hmem : existing ∈ st.entries)
    (_hv : entryValid (mergeInto existing inp) = true)
    (hInv : Inv st) :
    Inv { entries := st.entries.map (fun e =>
            if e.eid == existing.eid then mergeInto existing inp else e)
          nextId := st.nextId
          games := if coinEffect (mergeInto existing inp).type
                (mergeInto existing inp).amountFinal -
              coinEffect existing.type existing.amountFinal ≠ 0 then
              applyGameDelta st.games (mergeInto existing inp).gameName
                (coinEffect (mergeInto existing inp).type
                  (mergeInto existing inp).amountFinal -
                 coinEffect existing.type existing.amountFinal)
            else st.games
          hist := recordHistory st.hist histOk (mergeInto existing inp)
            "update-merge" } := by
  obtain ⟨hnd, hlt, htrim, hcoins⟩ := hInv
  have hfind : st.entries.find? (fun x => x.eid == existing.eid)
      = some existing := find?_eid_of_mem st.entries existing hnd hmem
  have heidmap : (st.entries.map (fun e =>
      if e.eid == existing.eid then mergeInto existing inp else e)).map
      Entry.eid = st.entries.map Entry.eid := by
    apply map_eid_replace
    intro e he hbeq
    rw [mergeInto_eid]
    simpa using hbeq
  have hmgn : (mergeInto existing inp).gameName = existing.gameName :=
    mergeInto_gameName existing inp
  have htrex := htrim existing hmem
  refine ⟨?_, ?_, ?_, ?_⟩
  · show ((st.entries.map _).map Entry.eid).Nodup
    rw [heidmap]
    exact hnd
  · intro e he
    obtain ⟨a, ha, hae⟩ := List.mem_map.mp he
    by_cases hc : (a.eid == existing.eid) = true
    · rw [if_pos hc] at hae
      rw [← hae, mergeInto_eid]
      exact hlt existing hmem
    · rw [if_neg hc] at hae
      rw [← hae]
      exact hlt a ha
  · intro e he
    obtain ⟨a, ha, hae⟩ := List.mem_map.mp he
    by_cases hc : (a.eid == existing.eid) = true
    · rw [if_pos hc] at hae
      rw [← hae, hmgn]
      exact htrex
    · rw [if_neg hc] at hae
      rw [← hae]
      exact htrim a ha
  · intro n c hc
    rw [ite_applyGameDelta, getCoins_applyGameDelta] at hc
    rw [sumEffects_replace n st.entries existing.eid existing
      (mergeInto existing inp) hfind hnd]
    rw [hmgn] at hc
    by_cases hcase : n = jsTrim existing.gameName ∧ jsTrim existing.gameName ≠ ""
    · rw [if_pos hcase] at hc
      obtain ⟨c₀, hc₀, hcc⟩ := Option.map_eq_some'.mp hc
      have hn : existing.gameName = n := by
        rw [← htrex.1]
        exact hcase.1.symm
      rw [← hcc, hcoins n c₀ hc₀]
      rw [contrib, if_pos hn, contrib, if_pos (hmgn.trans hn)]
      ring
    · rw [if_neg hcase] at hc
      have hn : ¬ existing.gameName = n := by
        intro h
        exact hcase ⟨by rw [htrex.1, h], by rw [htrex.1]; exact htrex.2⟩
      rw [contrib, if_neg hn, contrib, if_neg (fun h => hn (hmgn ▸ h))]
      rw [sub_zero, add_zero]
      exact hcoins n c hc

theorem mem_of_findLatestDeposit {entries : List Entry} {u t : String}
    {existing : Entry} (h : findLatestDeposit entries u t = some existing) :
    existing ∈ entries := by
  unfold findLatestDeposit at h
  exact (List.mem_filter.mp (mem_of_getLast?_eq_some h)).1

theorem Inv_createMerge (st : Store) (inp : CreateInput) (histOk : Bool)
    (existing : Entry) (hmem : existing ∈ st.entries) (hInv : Inv st) :
    Inv (createMerge st inp histOk existing).1 := by
  unfold createMerge
  dsimp only
  split
  · next hv =>
    exact Inv_merge st inp histOk existing hmem hv hInv
  · exact hInv

theorem Inv_createEntry (st : Store) (inp : CreateInput) (histOk : Bool)
    (hInv : Inv st) : Inv (createEntry st inp histOk).1 := by
  unfold createEntry
  split
  · exact hInv
  split
  · split
    · next existing heq =>
      exact Inv_createMerge st inp histOk existing
        (mem_of_findLatestDeposit heq) hInv
    · exact Inv_createDefault st inp histOk hInv
  · exact Inv_createDefault st inp histOk hInv

theorem contrib_eq (n : String) (e : Entry) :
    contrib n e = if e.gameName = n then coinEffect e.type e.amountFinal else 0 :=
  rfl

theorem ite_applyGameDelta_neg (gs : Games) (raw : String) (δ : ℤ) :
    (if δ ≠ 0 then applyGameDelta gs raw (-δ) else gs)
      = applyGameDelta gs raw (-δ) := by
  by_cases h : δ = 0
  · simp [h, applyGameDelta_zero]
  · simp [h]

theorem Inv_updateEntry (st : Store) (i : Nat) (p : UpdatePayload)
    (histOk : Bool) (hInv : Inv st) : Inv (updateEntry st i p histOk).1 := by
  obtain ⟨hnd, hlt, htrim, hcoins⟩ := hInv
  unfold updateEntry
  split
  · exact ⟨hnd, hlt, htrim, hcoins⟩
  next entry hfind =>
    split
    · exact ⟨hnd, hlt, htrim, hcoins⟩
    split
    · exact ⟨hnd, hlt, htrim, hcoins⟩
    split
    · exact ⟨hnd, hlt, htrim, hcoins⟩
    dsimp only
    split
    · next hv =>
      have hmem : entry ∈ st.entries := List.mem_of_find?_eq_some hfind
      have heid : entry.eid = i := by
        simpa using List.find?_some hfind
      have htrent := htrim entry hmem
      have hupdtr : jsTrim (applyUpdate entry p).gameName
          = (applyUpdate entry p).gameName := by
        rw [applyUpdate_gameName]
        cases hg : p.gameName with
        | some s => exact jsTrim_idem s
        | none => exact htrent.1
      have hupdne : (applyUpdate entry p).gameName ≠ "" :=
        entryValid_gameName hv
      refine ⟨?_, ?_, ?_, ?_⟩
      · show ((st.entries.map _).map Entry.eid).Nodup
        rw [map_eid_replace st.entries i (applyUpdate entry p)
          (fun e he hbeq => by
            rw [applyUpdate_eid, heid]
            simpa using hbeq)]
        exact hnd
      · intro e he
        obtain ⟨a, ha, hae⟩ := List.mem_map.mp he
        by_cases hc : (a.eid == i) = true
        · rw [if_pos hc] at hae
          rw [← hae, applyUpdate_eid, heid]
          have : a.eid = i := by simpa using hc
          rw [← this]
          exact hlt a ha
        · rw [if_neg hc] at hae
          rw [← hae]
          exact hlt a ha
      · intro e he
        obtain ⟨a, ha, hae⟩ := List.mem_map.mp he
        by_cases hc : (a.eid == i) = true
        · rw [if_pos hc] at hae
          rw [← hae]
          exact ⟨hupdtr, hupdne⟩
        · rw [if_neg hc] at hae
          rw [← hae]
          exact htrim a ha
      · intro n c hc
        rw [ite_applyGameDelta, ite_applyGameDelta_neg,
          getCoins_applyGameDelta, getCoins_applyGameDelta] at hc
        rw [sumEffects_replace n st.entries i entry (applyUpdate entry p)
          hfind hnd]
        by_cases h2 : n = jsTrim (applyUpdate entry p).gameName ∧
            jsTrim (applyUpdate entry p).gameName ≠ ""
        · rw [if_pos h2] at hc
          have hn2 : (applyUpdate entry p).gameName = n := by
            rw [← hupdtr]
            exact h2.1.symm
          by_cases h1 : n = jsTrim entry.gameName ∧ jsTrim entry.gameName ≠ ""
          · rw [if_pos h1] at hc
            have hn1 : entry.gameName = n := by
              rw [← htrent.1]
              exact h1.1.symm
            obtain ⟨c₁, hc₁, hcc1⟩ := Option.map_eq_some'.mp hc
            obtain ⟨c₀, hc₀, hcc0⟩ := Option.map_eq_some'.mp hc₁
            rw [← hcc1, ← hcc0, hcoins n c₀ hc₀]
            rw [contrib_eq, if_pos hn1, contrib_eq, if_pos hn2]
            ring
          · rw [if_neg h1] at hc
            have hn1 : ¬ entry.gameName = n := by
              intro h
              exact h1 ⟨by rw [htrent.1, h], by rw [htrent.1]; exact htrent.2⟩
            obtain ⟨c₀, hc₀, hcc⟩ := Option.map_eq_some'.mp hc
            rw [← hcc, hcoins n c₀ hc₀]
            rw [contrib_eq, if_neg hn1, contrib_eq, if_pos hn2]
            ring
        · rw [if_neg h2] at hc
          have hn2 : ¬ (applyUpdate entry p).gameName = n := by
            intro h
            exact h2 ⟨by rw [hupdtr, h], by rw [hupdtr]; exact hupdne⟩
          by_cases h1 : n = jsTrim entry.gameName ∧ jsTrim entry.gameName ≠ ""
          · rw [if_pos h1] at hc
            have hn1 : entry.gameName = n := by
              rw [← htrent.1]
              exact h1.1.symm
            obtain ⟨c₀, hc₀, hcc⟩ := Option.map_eq_some'.mp hc
            rw [← hcc, hcoins n c₀ hc₀]
            rw [contrib_eq, if_pos hn1, contrib_eq, if_neg hn2]
            ring
          · rw [if_neg h1] at hc
            have hn1 : ¬ entry.gameName = n := by
              intro h
              exact h1 ⟨by rw [htrent.1, h], by rw [htrent.1]; exact htrent.2⟩
            rw [contrib_eq, if_neg hn1, contrib_eq, if_neg hn2]
            rw [sub_zero, add_zero]
            exact hcoins n c hc
    · exact ⟨hnd, hlt, htrim, hcoins⟩

theorem Inv_deleteEntry (st : Store) (i : Nat) (histOk : Bool)
    (hInv : Inv st) : Inv (deleteEntry st i histOk).1 := by
  obtain ⟨hnd, hlt, htrim, hcoins⟩ := hInv
  unfold deleteEntry
  split
  · exact ⟨hnd, hlt, htrim, hcoins⟩
  next entry hfind =>
    dsimp only
    have hmem : entry ∈ st.entries := List.mem_of_find?_eq_some hfind
    have htrent := htrim entry hmem
    refine ⟨?_, ?_, ?_, ?_⟩
    · show ((st.entries.filter _).map Entry.eid).Nodup
      exact List.Nodup.sublist
        (List.Sublist.map Entry.eid (List.filter_sublist st.entries)) hnd
    · intro e he
      exact hlt e (List.mem_filter.mp he).1
    · intro e he
      exact htrim e (List.mem_filter.mp he).1
    · intro n c hc
      rw [ite_applyGameDelta_neg, getCoins_applyGameDelta] at hc
      rw [sumEffects_erase n st.entries i entry hfind hnd]
      by_cases h1 : n = jsTrim entry.gameName ∧ jsTrim entry.gameName ≠ ""
      · rw [if_pos h1] at hc
        have hn1 : entry.gameName = n := by
          rw [← htrent.1]
          exact h1.1.symm
        obtain ⟨c₀, hc₀, hcc⟩ := Option.map_eq_some'.mp hc
        rw [← hcc, hcoins n c₀ hc₀]
        rw [contrib_eq, if_pos hn1]
        ring
      · rw [if_neg h1] at hc
        have hn1 : ¬ entry.gameName = n := by
          intro h
          exact h1 ⟨by rw [htrent.1, h], by rw [htrent.1]; exact htrent.2⟩
        rw [contrib_eq, if_neg hn1, sub_zero]
        exact hcoins n c hc

theorem contrib_clearFields (n : String) (e : Entry) :
    contrib n (clearFields e) = contrib n e := by
  rw [contrib_eq, contrib_eq, clearFields_gameName, clearFields_type,
    clearFields_amountFinal]

theorem Inv_clearPendingOp (st : Store) (i : Nat) (histOk : Bool)
    (hInv : Inv st) : Inv (clearPendingOp st i histOk).1 := by
  obtain ⟨hnd, hlt, htrim, hcoins⟩ := hInv
  unfold clearPendingOp
  split
  · exact ⟨hnd, hlt, htrim, hcoins⟩
  next entry hfind =>
    dsimp only
    split
    · have hmem : entry ∈ st.entries := List.mem_of_find?_eq_some hfind
      have heid : entry.eid = i := by simpa using List.find?_some hfind
      refine ⟨?_, ?_, ?_, ?_⟩
      · show ((st.entries.map _).map Entry.eid).Nodup
        rw [map_eid_replace st.entries i (clearFields entry)
          (fun e he hbeq => by
            rw [clearFields_eid, heid]
            simpa using hbeq)]
        exact hnd
      · intro e he
        obtain ⟨a, ha, hae⟩ := List.mem_map.mp he
        by_cases hc : (a.eid == i) = true
        · rw [if_pos hc] at hae
          rw [← hae, clearFields_eid, heid]
          have : a.eid = i := by simpa using hc
          rw [← this]
          exact hlt a ha
        · rw [if_neg hc] at hae
          rw [← hae]
          exact hlt a ha
      · intro e he
        obtain ⟨a, ha, hae⟩ := List.mem_map.mp he
        by_cases hc : (a.eid == i) = true
        · rw [if_pos hc] at hae
          rw [← hae]
          rw [show (clearFields entry).gameName = entry.gameName from
            clearFields_gameName entry]
          exact htrim entry hmem
        · rw [if_neg hc] at hae
          rw [← hae]
          exact htrim a ha
      · intro n c hc
        rw [sumEffects_replace n st.entries i entry (clearFields entry)
          hfind hnd]
        rw [contrib_clearFields]
        rw [sub_add_cancel]
        exact hcoins n c hc
    · exact ⟨hnd, hlt, htrim, hcoins⟩

theorem Inv_stepOp (histOk : Bool) (st : Store) (req : OpReq)
    (hInv : Inv st) : Inv (stepOp histOk st req).1 := by
  cases req with
  | create inp => exact Inv_createEntry st inp histOk hInv
  | update i p => exact Inv_updateEntry st i p histOk hInv
  | delete i => exact Inv_deleteEntry st i histOk hInv
  | clearPending i => exact Inv_clearPendingOp st i histOk hInv

theorem Inv_runOps (st : Store) (ops : List (OpReq × Bool)) (hInv : Inv st) :
    Inv (runOps st ops) := by
  induction ops generalizing st with
  | nil => exact hInv
  | cons op rest ih =>
    exact ih _ (Inv_stepOp op.2 st op.1 hInv)

theorem Inv_initStore (gameNames : List String) : Inv (initStore gameNames) := by
  refine ⟨List.nodup_nil, ?_, ?_, ?_⟩
  · intro e he
    simp [initStore] at he
  · intro e he
    simp [initStore] at he
  · intro n c hc
    rw [show sumEffects n (initStore gameNames).entries = 0 from rfl]
    unfold initStore at hc
    dsimp only at hc
    induction gameNames with
    | nil => simp [getCoins] at hc
    | cons g gs ih =>
      rw [List.map_cons, getCoins_cons] at hc
      by_cases hg : g = n
      · rw [if_pos hg] at hc
        exact (Option.some_inj.mp hc).symm
      · rw [if_neg hg] at hc
        exact ih hc

/-- **C1.** For every sequence of CreateEntry/UpdateEntry/DeleteEntry (and
ClearPending) operations executed sequentially on an initial deployment,
the post-sequence `GameBalance.totalCoins` of every game that has a balance
row equals the sum of `coinEffect(kind, amountFinal)` over the entries that
still exist for that game, where `coinEffect` is `0` for a non-positive
amount, `-a` for deposit/freeplay/playedgame and `+a` for redeem. -/
theorem c1_totalCoins_materializes (gameNames : List String)
    (ops : List (OpReq × Bool)) (n : String) (c : ℤ)
    (h : getCoins (runOps (initStore gameNames) ops).games n = some c) :
    c = sumEffects n (runOps (initStore gameNames) ops).entries :=
  (Inv_runOps _ ops (Inv_initStore gameNames)).2.2.2 n c h

/-- Witness for C1: deposit 100 then redeem 40 on game `X` leaves
`totalCoins = -60`, which the theorem equates with the surviving entries'
summed coin effects. -/
theorem c1_totalCoins_materializes_witness :
    getCoins (runOps (initStore ["X"]) c1ops).games "X" = some (-60) ∧
    (-60 : ℤ) = sumEffects "X" (runOps (initStore ["X"]) c1ops).entries :=
  ⟨by decide, c1_totalCoins_materializes ["X"] c1ops "X" (-60) (by decide)⟩

theorem obs_createDefault (st : Store) (inp : CreateInput) (histOk : Bool) :
    obs (createDefault st inp histOk) = obs (createDefault st inp true) := by
  unfold createDefault
  dsimp only
  split <;> rfl

theorem obs_createMerge (st : Store) (inp : CreateInput) (histOk : Bool)
    (existing : Entry) :
    obs (createMerge st inp histOk existing)
      = obs (createMerge st inp true existing) := by
  unfold createMerge
  dsimp only
  split <;> rfl

theorem obs_createEntry (st : Store) (inp : CreateInput) (histOk : Bool) :
    obs (createEntry st inp histOk) = obs (createEntry st inp true) := by
  unfold createEntry
  split
  · rfl
  split
  · split
    · exact obs_createMerge st inp histOk _
    · exact obs_createDefault st inp histOk
  · exact obs_createDefault st inp histOk

theorem obs_updateEntry (st : Store) (i : Nat) (p : UpdatePayload)
    (histOk : Bool) :
    obs (updateEntry st i p histOk) = obs (updateEntry st i p true) := by
  unfold updateEntry
  split
  · rfl
  split
  · rfl
  split
  · rfl
  split
  · rfl
  dsimp only
  split <;> rfl

theorem obs_deleteEntry (st : Store) (i : Nat) (histOk : Bool) :
    obs (deleteEntry st i histOk) = obs (deleteEntry st i true) := by
  unfold deleteEntry
  split <;> rfl

theorem obs_clearPendingOp (st : Store) (i : Nat) (histOk : Bool) :
    obs (clearPendingOp st i histOk) = obs (clearPendingOp st i true) := by
  unfold clearPendingOp
  split
  · rfl
  dsimp only
  split <;> rfl

theorem obs_stepOp (st : Store) (req : OpReq) (histOk : Bool) :
    obs (stepOp histOk st req) = obs (stepOp true st req) := by
  cases req with
  | create inp => exact obs_createEntry st inp histOk
  | update i p => exact obs_updateEntry st i p histOk
  | delete i => exact obs_deleteEntry st i histOk
  | clearPending i => exact obs_clearPendingOp st i histOk

/-- **C7.** A history-write failure is never propagated and never rolls back
the primary mutation: for every request (create — merge path included —
update, delete, clear-pending) and every starting state, the response and
the resulting entry and balance state are identical whether the history
write succeeds (`histOk = true`) or fails (`histOk = false`); only the
history log itself can differ. -/
theorem c7_history_failure_transparent (st : Store) (req : OpReq) :
    (stepOp false st req).1.entries = (stepOp true st req).1.entries ∧
    (stepOp false st req).1.games = (stepOp true st req).1.games ∧
    (stepOp false st req).1.nextId = (stepOp true st req).1.nextId ∧
    (stepOp false st req).2 = (stepOp true st req).2 := by
  have h := obs_stepOp st req false
  unfold obs at h
  refine ⟨?_, ?_, ?_, ?_⟩
  · exact congrArg (fun t => t.1.1) h
  · exact congrArg (fun t => t.1.2.1) h
  · exact congrArg (fun t => t.1.2.2) h
  · exact congrArg (fun t => t.2) h

theorem clearFields_idem (e : Entry) :
    clearFields (clearFields e) = clearFields e := by
  unfold clearFields
  rcases e with ⟨_, _, _, ty, _⟩
  cases ty <;> rfl

theorem find?_replace (entries : List Entry) (i : Nat) (m : Entry)
    (hm : (m.eid == i) = true) :
    (entries.map (fun e => if e.eid == i then m else e)).find?
        (fun e => e.eid == i)
      = (entries.find? (fun e => e.eid == i)).map (fun _ => m) := by
  induction entries with
  | nil => rfl
  | cons x xs ih =>
    by_cases hx : (x.eid == i) = true
    · rw [show (x :: xs).map (fun e => if e.eid == i then m else e)
            = m :: xs.map (fun e => if e.eid == i then m else e) from by
          rw [List.map_cons, if_pos hx]]
      rw [show (m :: xs.map (fun e => if e.eid == i then m else e)).find?
            (fun e => e.eid == i) = some m from by
          simp [List.find?_cons, hm]]
      rw [show (x :: xs).find? (fun e => e.eid == i) = some x from by
          simp [List.find?_cons, hx]]
      rfl
    · have hx' : (x.eid == i) = false := by simpa using hx
      rw [show (x :: xs).map (fun e => if e.eid == i then m else e)
            = x :: xs.map (fun e => if e.eid == i then m else e) from by
          rw [List.map_cons, if_neg hx]]
      rw [show (x :: xs.map (fun e => if e.eid == i then m else e)).find?
            (fun e => e.eid == i)
            = (xs.map (fun e => if e.eid == i then m else e)).find?
              (fun e => e.eid == i) from by
          simp [List.find?_cons, hx']]
      rw [show (x :: xs).find? (fun e => e.eid == i)
            = xs.find? (fun e => e.eid == i) from by
          simp [List.find?_cons, hx']]
      exact ih

theorem map_replace_twice (entries : List Entry) (i : Nat) (m : Entry)
    (hm : (m.eid == i) = true) :
    ((entries.map (fun e => if e.eid == i then m else e)).map
        (fun e => if e.eid == i then m else e))
      = entries.map (fun e => if e.eid == i then m else e) := by
  rw [List.map_map]
  apply List.map_congr_left
  intro y _
  by_cases hy : (y.eid == i) = true
  · simp only [Function.comp_apply]
    rw [if_pos hy, if_pos hm]
  · simp only [Function.comp_apply]
    rw [if_neg hy, if_neg hy]

theorem clearPendingOp_games (st : Store) (i : Nat) (histOk : Bool) :
    (clearPendingOp st i histOk).1.games = st.games := by
  unfold clearPendingOp
  split
  · rfl
  dsimp only
  split <;> rfl

/-- **C6.** `ClearPending` is idempotent: a second call leaves the entry
collection exactly as after the first; no call ever changes any
`GameBalance.totalCoins`; the zeroing clears `remainingPay`/`isPending` for
redeem, `reduction`/`isPending` for deposit, and all three otherwise, while
never touching `amountFinal`. -/
theorem c6_clearPending_idempotent (st : Store) (i : Nat) (h1 h2 : Bool)
    (e : Entry) :
    ((clearPendingOp (clearPendingOp st i h1).1 i h2).1.entries
        = (clearPendingOp st i h1).1.entries) ∧
    (clearPendingOp st i h1).1.games = st.games ∧
    (clearFields e).amountFinal = e.amountFinal ∧
    (e.type = EType.redeem →
      (clearFields e).remainingPay = some 0 ∧
      (clearFields e).isPending = false) ∧
    (e.type = EType.deposit →
      (clearFields e).reduction = some 0 ∧
      (clearFields e).isPending = false) ∧
    (e.type ≠ EType.redeem → e.type ≠ EType.deposit →
      (clearFields e).remainingPay = some 0 ∧
      (clearFields e).reduction = some 0 ∧
      (clearFields e).isPending = false) := by
  refine ⟨?_, clearPendingOp_games st i h1, ?_, ?_, ?_, ?_⟩
  · by_cases hf : ∃ entry, st.entries.find? (fun x => x.eid == i) = some entry
    · obtain ⟨entry, hfind⟩ := hf
      have heid : (entry.eid == i) = true := by
        have h0 := List.find?_some hfind
        simpa using h0
      have hmeid : ((clearFields entry).eid == i) = true := by
        rw [clearFields_eid]
        exact heid
      by_cases hv : entryValid (clearFields entry) = true
      · have hst1 : (clearPendingOp st i h1).1.entries
            = st.entries.map (fun x =>
                if x.eid == i then clearFields entry else x) := by
          unfold clearPendingOp
          rw [hfind]
          dsimp only
          rw [if_pos hv]
        have hfind2 : (clearPendingOp st i h1).1.entries.find?
            (fun x => x.eid == i) = some (clearFields entry) := by
          rw [hst1, find?_replace st.entries i (clearFields entry) hmeid,
            hfind]
          rfl
        generalize hg : (clearPendingOp st i h1).1 = st1
        rw [hg] at hst1 hfind2
        unfold clearPendingOp
        rw [hfind2]
        dsimp only
        rw [clearFields_idem]
        rw [if_pos hv]
        rw [hst1]
        dsimp only
        exact map_replace_twice st.entries i (clearFields entry) hmeid
      · have hst1 : (clearPendingOp st i h1).1 = st := by
          unfold clearPendingOp
          rw [hfind]
          dsimp only
          rw [if_neg hv]
        rw [hst1]
        unfold clearPendingOp
        rw [hfind]
        dsimp only
        rw [if_neg hv]
    · have hfind : st.entries.find? (fun x => x.eid == i) = none := by
        cases hca : st.entries.find? (fun x => x.eid == i) with
        | none => rfl
        | some entry => exact absurd ⟨entry, hca⟩ hf
      have hst1 : (clearPendingOp st i h1).1 = st := by
        unfold clearPendingOp
        rw [hfind]
      rw [hst1]
      unfold clearPendingOp
      rw [hfind]
  · exact clearFields_amountFinal e
  · intro hty
    unfold clearFields
    rw [if_pos hty]
    exact ⟨rfl, rfl⟩
  · intro hty
    unfold clearFields
    rw [if_neg (by rw [hty]; intro h; exact absurd h (by decide)), if_pos hty]
    exact ⟨rfl, rfl⟩
  · intro hr hd
    unfold clearFields
    rw [if_neg hr, if_neg hd]
    exact ⟨rfl, rfl, rfl⟩

/-- Witness for C6 at a concrete pending redeem entry. -/
theorem c6_clearPending_idempotent_witness :
    ((clearPendingOp (clearPendingOp c6store 0 true).1 0 true).1.entries
        = (clearPendingOp c6store 0 true).1.entries) ∧
    (clearPendingOp c6store 0 true).1.games = c6store.games ∧
    (clearFields c6entry).amountFinal = c6entry.amountFinal ∧
    (clearFields c6entry).remainingPay = some 0 ∧
    (clearFields c6entry).isPending = false := by
  obtain ⟨ha, hb, hc, hd, _, _⟩ :=
    c6_clearPending_idempotent c6store 0 true true c6entry
  exact ⟨ha, hb, hc, (hd (by decide)).1, (hd (by decide)).2⟩

/-! ## The deposit-merge path -/

theorem optNonneg_getD {o : Option ℤ} (h : optNonneg o = true) : 0 ≤ o.getD 0 := by
  cases o with
  | none => exact le_refl 0
  | some q => simpa [optNonneg] using h

theorem if_pos_eq_max (r : ℤ) : (if 0 < r then r else 0) = max r 0 := by
  rcases le_or_lt r 0 with h | h
  · rw [if_neg (not_lt.mpr h), max_eq_right h]
  · rw [if_pos h, max_eq_left (le_of_lt h)]

theorem createValidation_none {inp : CreateInput}
    (h : createValidationError inp = none) :
    jsTrim (inp.username.getD "") ≠ "" ∧
    jsTrim (inp.createdBy.getD "") ≠ "" ∧
    inp.type.isSome ∧
    jsTrim (inp.gameName.getD "") ≠ "" ∧
    (∃ b, inp.amountBase = some b ∧ 0 ≤ b) ∧
    (∃ f, inp.amountFinal = some f ∧ 0 ≤ f) := by
  unfold createValidationError at h
  split at h
  · simp at h
  next h1 =>
    split at h
    · simp at h
    next h2 =>
      split at h
      · simp at h
      next ty hty =>
        split at h
        · simp at h
        next h3 =>
          split at h
          · simp at h
          next h4 =>
            split at h
            · simp at h
            next base hbase =>
              split at h
              · simp at h
              next h5 =>
                split at h
                · simp at h
                next final hfin =>
                  split at h
                  · simp at h
                  next h6 =>
                    exact ⟨h1, h2, by rw [hty]; rfl, h4,
                      ⟨base, hbase, not_lt.mp h5⟩,
                      ⟨final, hfin, not_lt.mp h6⟩⟩

theorem mergeInto_username (e : Entry) (inp : CreateInput) :
    (mergeInto e inp).username = e.username := rfl

theorem mergeInto_createdBy (e : Entry) (inp : CreateInput) :
    (mergeInto e inp).createdBy = e.createdBy := rfl

theorem mergeInto_method (e : Entry) (inp : CreateInput) :
    (mergeInto e inp).method = e.method := rfl

theorem mergeInto_bonusRate (e : Entry) (inp : CreateInput) :
    (mergeInto e inp).bonusRate = e.bonusRate := rfl

theorem mergeInto_bonusAmount (e : Entry) (inp : CreateInput) :
    (mergeInto e inp).bonusAmount = e.bonusAmount := rfl

theorem mergeInto_totalPaid (e : Entry) (inp : CreateInput) :
    (mergeInto e inp).totalPaid = e.totalPaid := rfl

theorem mergeInto_remainingPay (e : Entry) (inp : CreateInput) :
    (mergeInto e inp).remainingPay = e.remainingPay := rfl

theorem mergeInto_amountBase (e : Entry) (inp : CreateInput) :
    (mergeInto e inp).amountBase = e.amountBase + inp.amountBase.getD 0 := rfl

theorem mergeInto_amount (e : Entry) (inp : CreateInput) :
    (mergeInto e inp).amount
      = some (e.amount.getD 0 + inp.amount.getD (inp.amountFinal.getD 0)) := by
  unfold mergeInto
  dsimp only
  cases inp.amount with
  | none => rfl
  | some a => rfl

theorem mergeInto_amountFinal (e : Entry) (inp : CreateInput) :
    (mergeInto e inp).amountFinal = e.amountFinal + inp.amountFinal.getD 0 := rfl

theorem mergeInto_totalCashout (e : Entry) (inp : CreateInput) :
    (mergeInto e inp).totalCashout
      = (if e.totalCashout.getD 0 = 0 then some (inp.totalCashout.getD 0)
         else e.totalCashout) := rfl

theorem mergeInto_extraMoney (e : Entry) (inp : CreateInput) :
    (mergeInto e inp).extraMoney
      = some (e.extraMoney.getD 0 + inp.extraMoney.getD 0) := rfl

theorem mergeInto_reduction (e : Entry) (inp : CreateInput) :
    (mergeInto e inp).reduction
      = some (max ((mergeInto e inp).totalCashout.getD 0
          - (mergeInto e inp).amountFinal) 0) := by
  rw [show (mergeInto e inp).reduction
      = some (if 0 < ((mergeInto e inp).totalCashout.getD 0
            - (mergeInto e inp).amountFinal)
          then ((mergeInto e inp).totalCashout.getD 0
            - (mergeInto e inp).amountFinal) else 0) from rfl]
  rw [if_pos_eq_max]

theorem mergeInto_isPending (e : Entry) (inp : CreateInput) :
    (mergeInto e inp).isPending
      = decide (0 < (mergeInto e inp).reduction.getD 0) := rfl

/-- Merging validated, non-negative inputs into a schema-valid deposit row
yields a schema-valid row, so the merge's `save` succeeds. -/
theorem mergeInto_valid (existing : Entry) (inp : CreateInput)
    (hex : entryValid existing = true)
    (hb : 0 ≤ inp.amountBase.getD 0)
    (hf : 0 ≤ inp.amountFinal.getD 0)
    (ham : 0 ≤ inp.amount.getD (inp.amountFinal.getD 0))
    (htc : 0 ≤ inp.totalCashout.getD 0)
    (hem : 0 ≤ inp.extraMoney.getD 0) :
    entryValid (mergeInto existing inp) = true := by
  unfold entryValid at hex ⊢
  simp only [Bool.and_eq_true, decide_eq_true_eq, ne_eq] at hex ⊢
  obtain ⟨⟨⟨⟨⟨⟨⟨⟨⟨⟨⟨⟨⟨hu, hc⟩, hg⟩, hm⟩, hab⟩, hbr⟩, hba⟩, haf⟩, ham'⟩,
    htp⟩, htc'⟩, hrp⟩, hem'⟩, hred⟩ := hex
  refine ⟨⟨⟨⟨⟨⟨⟨⟨⟨⟨⟨⟨⟨?_, ?_⟩, ?_⟩, ?_⟩, ?_⟩, ?_⟩, ?_⟩, ?_⟩, ?_⟩, ?_⟩,
    ?_⟩, ?_⟩, ?_⟩, ?_⟩
  · rw [mergeInto_username]; exact hu
  · rw [mergeInto_createdBy]; exact hc
  · rw [mergeInto_gameName]; exact hg
  · rw [show (mergeInto existing inp).method = existing.method from rfl,
      show (mergeInto existing inp).type = existing.type from rfl]
    exact hm
  · rw [mergeInto_amountBase]
    exact add_nonneg hab hb
  · rw [mergeInto_bonusRate]; exact hbr
  · rw [mergeInto_bonusAmount]; exact hba
  · rw [mergeInto_amountFinal]
    exact add_nonneg haf hf
  · rw [show optNonneg (mergeInto existing inp).amount
        = optNonneg (some (existing.amount.getD 0
            + inp.amount.getD (inp.amountFinal.getD 0))) from by
      rw [mergeInto_amount]]
    simp only [optNonneg, decide_eq_true_eq]
    exact add_nonneg (optNonneg_getD ham') ham
  · rw [mergeInto_totalPaid]; exact htp
  · rw [show optNonneg (mergeInto existing inp).totalCashout
        = optNonneg (if existing.totalCashout.getD 0 = 0
            then some (inp.totalCashout.getD 0) else existing.totalCashout)
        from by rw [mergeInto_totalCashout]]
    split
    · simp only [optNonneg, decide_eq_true_eq]
      exact htc
    · exact htc'
  · rw [mergeInto_remainingPay]; exact hrp
  · rw [show optNonneg (mergeInto existing inp).extraMoney
        = optNonneg (some (existing.extraMoney.getD 0
            + inp.extraMoney.getD 0)) from by rw [mergeInto_extraMoney]]
    simp only [optNonneg, decide_eq_true_eq]
    exact add_nonneg (optNonneg_getD hem') hem
  · rw [show (mergeInto existing inp).reduction
        = some (max ((mergeInto existing inp).totalCashout.getD 0
            - (mergeInto existing inp).amountFinal) 0)
        from mergeInto_reduction existing inp]
    simp only [optNonneg, decide_eq_true_eq]
    exact le_max_right _ _

/-- **C2.** A validated deposit with a non-empty player tag and a positive
caller-supplied reduction, when a deposit row for the same
(username, playerTag) exists, updates the most recently created such row in
place: `amountBase`/`amount`/`amountFinal` accumulate, `totalCashout` is set
only if previously zero, `extraMoney` accumulates,
`playerName`/`note`/`date` are overwritten only when supplied, the merged
row satisfies `reduction = max(totalCashout − amountFinal, 0)` and
`isPending ↔ reduction > 0`, an `update-merge` history action is recorded,
and only the difference of the coin effects is applied to the game balance. -/
theorem c2_deposit_merge (st : Store) (inp : CreateInput) (histOk : Bool)
    (existing : Entry)
    (hval : createValidationError inp = none)
    (hm : mergeApplies inp = true)
    (hfound : findLatestDeposit st.entries (jsTrim (inp.username.getD ""))
      (jsTrim (inp.playerTag.getD "")) = some existing)
    (hexv : entryValid existing = true)
    (ham : 0 ≤ inp.amount.getD (inp.amountFinal.getD 0))
    (htc : 0 ≤ inp.totalCashout.getD 0)
    (hem : 0 ≤ inp.extraMoney.getD 0) :
    (createEntry st inp histOk).2
        = Resp.okEntry 200 (mergeInto existing inp) ∧
    (createEntry st inp histOk).1.entries
        = st.entries.map (fun e =>
            if e.eid == existing.eid then mergeInto existing inp else e) ∧
    (createEntry st inp histOk).1.games
        = applyGameDelta st.games existing.gameName
            (coinEffect (mergeInto existing inp).type
                (mergeInto existing inp).amountFinal
              - coinEffect existing.type existing.amountFinal) ∧
    (createEntry st inp histOk).1.hist
        = recordHistory st.hist histOk (mergeInto existing inp)
            "update-merge" ∧
    (mergeInto existing inp).amountBase
        = existing.amountBase + inp.amountBase.getD 0 ∧
    (mergeInto existing inp).amount
        = some (existing.amount.getD 0
            + inp.amount.getD (inp.amountFinal.getD 0)) ∧
    (mergeInto existing inp).amountFinal
        = existing.amountFinal + inp.amountFinal.getD 0 ∧
    (existing.totalCashout.getD 0 = 0 →
      (mergeInto existing inp).totalCashout
        = some (inp.totalCashout.getD 0)) ∧
    (existing.totalCashout.getD 0 ≠ 0 →
      (mergeInto existing inp).totalCashout = existing.totalCashout) ∧
    (mergeInto existing inp).extraMoney
        = some (existing.extraMoney.getD 0 + inp.extraMoney.getD 0) ∧
    (inp.playerName = none →
      (mergeInto existing inp).playerName = existing.playerName) ∧
    (∀ s, inp.playerName = some s →
      (mergeInto existing inp).playerName = jsTrim s) ∧
    (inp.note = none → (mergeInto existing inp).note = existing.note) ∧
    (inp.date = none → (mergeInto existing inp).date = existing.date) ∧
    (mergeInto existing inp).reduction
        = some (max ((mergeInto existing inp).totalCashout.getD 0
            - (mergeInto existing inp).amountFinal) 0) ∧
    ((mergeInto existing inp).isPending = true ↔
      0 < (mergeInto existing inp).reduction.getD 0) := by
  obtain ⟨_, _, _, _, ⟨b, hbeq, hb0⟩, ⟨f, hfeq, hf0⟩⟩ :=
    createValidation_none hval
  have hb : 0 ≤ inp.amountBase.getD 0 := by rw [hbeq]; exact hb0
  have hf : 0 ≤ inp.amountFinal.getD 0 := by rw [hfeq]; exact hf0
  have hmv : entryValid (mergeInto existing inp) = true :=
    mergeInto_valid existing inp hexv hb hf ham htc hem
  have hstep : createEntry st inp histOk = createMerge st inp histOk existing := by
    unfold createEntry
    rw [hval]
    dsimp only
    rw [if_pos hm, hfound]
  have hres : createMerge st inp histOk existing
      = ({ entries := st.entries.map (fun e =>
             if e.eid == existing.eid then mergeInto existing inp else e)
           nextId := st.nextId
           games := applyGameDelta st.games (mergeInto existing inp).gameName
             (coinEffect (mergeInto existing inp).type
                 (mergeInto existing inp).amountFinal
               - coinEffect existing.type existing.amountFinal)
           hist := recordHistory st.hist histOk (mergeInto existing inp)
             "update-merge" },
         Resp.okEntry 200 (mergeInto existing inp)) := by
    unfold createMerge
    dsimp only
    rw [if_pos hmv, ite_applyGameDelta]
  rw [hstep, hres]
  refine ⟨rfl, rfl, ?_, rfl, mergeInto_amountBase existing inp,
    mergeInto_amount existing inp, mergeInto_amountFinal existing inp,
    ?_, ?_, mergeInto_extraMoney existing inp, ?_, ?_, ?_, ?_,
    mergeInto_reduction existing inp, ?_⟩
  · rw [mergeInto_gameName]
  · intro h
    rw [mergeInto_totalCashout, if_pos h]
  · intro h
    rw [mergeInto_totalCashout, if_neg h]
  · intro h
    rw [show (mergeInto existing inp).playerName
        = (match inp.playerName with
           | some pn => jsTrim pn
           | none => existing.playerName) from rfl, h]
  · intro s h
    rw [show (mergeInto existing inp).playerName
        = (match inp.playerName with
           | some pn => jsTrim pn
           | none => existing.playerName) from rfl, h]
  · intro h
    rw [show (mergeInto existing inp).note
        = (match inp.note with
           | some n0 => jsTrim n0
           | none => existing.note) from rfl, h]
  · intro h
    rw [show (mergeInto existing inp).date
        = (match inp.date with
           | some d => normalizeDateString (some d)
           | none => existing.date) from rfl, h]
  · rw [mergeInto_isPending]
    exact decide_eq_true_iff

/-- Witness for C2 at the concrete merge instance. -/
theorem c2_deposit_merge_witness :
    createValidationError c2inp = none ∧
    mergeApplies c2inp = true ∧
    findLatestDeposit c2store.entries (jsTrim (c2inp.username.getD ""))
      (jsTrim (c2inp.playerTag.getD "")) = some c2existing ∧
    (createEntry c2store c2inp true).2
      = Resp.okEntry 200 (mergeInto c2existing c2inp) ∧
    (mergeInto c2existing c2inp).amountFinal
      = c2existing.amountFinal + c2inp.amountFinal.getD 0 ∧
    (mergeInto c2existing c2inp).reduction
      = some (max ((mergeInto c2existing c2inp).totalCashout.getD 0
          - (mergeInto c2existing c2inp).amountFinal) 0) := by
  have h := c2_deposit_merge c2store c2inp true c2existing (by decide)
    (by decide) (by decide) (by decide) (by decide) (by decide) (by decide)
  exact ⟨by decide, by decide, by decide, h.1, h.2.2.2.2.2.2.1,
    h.2.2.2.2.2.2.2.2.2.2.2.2.2.2.1⟩

/-- **C8.** The deposit-merge target lookup matches only on
(username, playerTag, kind = deposit) and ignores `gameName`: the merged row
keeps its original game A (`existing.gameName`), the submitted game B is
discarded, the coin-effect difference is applied to game A's balance, and
the balance of every other game — in particular the submitted B whenever
it differs from A — is untouched. -/
theorem c8_merge_ignores_gameName (st : Store) (inp : CreateInput)
    (histOk : Bool) (existing : Entry)
    (hval : createValidationError inp = none)
    (hm : mergeApplies inp = true)
    (hfound : findLatestDeposit st.entries (jsTrim (inp.username.getD ""))
      (jsTrim (inp.playerTag.getD "")) = some existing)
    (hmv : entryValid (mergeInto existing inp) = true) :
    (mergeInto existing inp).gameName = existing.gameName ∧
    (createEntry st inp histOk).1.games
        = applyGameDelta st.games existing.gameName
            (coinEffect (mergeInto existing inp).type
                (mergeInto existing inp).amountFinal
              - coinEffect existing.type existing.amountFinal) ∧
    (∀ n, n ≠ jsTrim existing.gameName →
      getCoins (createEntry st inp histOk).1.games n = getCoins st.games n) := by
  have hstep : createEntry st inp histOk
      = createMerge st inp histOk existing := by
    unfold createEntry
    rw [hval]
    dsimp only
    rw [if_pos hm, hfound]
  have hgames : (createEntry st inp histOk).1.games
      = applyGameDelta st.games existing.gameName
          (coinEffect (mergeInto existing inp).type
              (mergeInto existing inp).amountFinal
            - coinEffect existing.type existing.amountFinal) := by
    rw [hstep]
    unfold createMerge
    dsimp only
    rw [if_pos hmv]
    dsimp only
    rw [ite_applyGameDelta, mergeInto_gameName]
  refine ⟨mergeInto_gameName existing inp, hgames, ?_⟩
  intro n hn
  rw [hgames, getCoins_applyGameDelta]
  rw [if_neg (fun hcon => hn hcon.1)]

/-- Witness for C8: merging the game-`B` deposit `c2inp` into the game-`A`
row `c2existing` leaves `B`'s balance untouched and keeps `gameName = "A"`. -/
theorem c8_merge_ignores_gameName_witness :
    (mergeInto c2existing c2inp).gameName = "A" ∧
    getCoins (createEntry c2store c2inp true).1.games "B"
      = getCoins c2store.games "B" ∧
    getCoins (createEntry c2store c2inp true).1.games "A" = some (-55) := by
  have h := c8_merge_ignores_gameName c2store c2inp true c2existing
    (by decide) (by decide) (by decide) (by decide)
  exact ⟨h.1, h.2.2 "B" (by decide), by decide⟩

/-- **C9.** When the default create path runs (no merge), the stored entry's
`reduction` is exactly the caller-supplied numeric value (default 0) and its
`isPending` is exactly the boolean coercion of the caller's input, for every
kind; no recomputation relates them. -/
theorem c9_default_create_stores_raw_pending (st : Store) (inp : CreateInput)
    (histOk : Bool)
    (hval : createValidationError inp = none)
    (hnm : mergeApplies inp = false ∨
      findLatestDeposit st.entries (jsTrim (inp.username.getD ""))
        (jsTrim (inp.playerTag.getD "")) = none)
    (hv : entryValid (mkNewDoc st.nextId inp) = true) :
    (createEntry st inp histOk).2
        = Resp.okEntry 201 (mkNewDoc st.nextId inp) ∧
    (createEntry st inp histOk).1.entries
        = st.entries ++ [mkNewDoc st.nextId inp] ∧
    (mkNewDoc st.nextId inp).reduction = some (inp.reduction.getD 0) ∧
    (mkNewDoc st.nextId inp).isPending = inp.isPending := by
  have hstep : createEntry st inp histOk = createDefault st inp histOk := by
    unfold createEntry
    rw [hval]
    dsimp only
    rcases hnm with h | h
    · rw [if_neg (by rw [h]; simp)]
    · by_cases hm : mergeApplies inp = true
      · rw [if_pos hm, h]
      · rw [if_neg hm]
  have hres : createDefault st inp histOk
      = ({ entries := st.entries ++ [mkNewDoc st.nextId inp]
           nextId := st.nextId + 1
           games := applyGameDelta st.games (mkNewDoc st.nextId inp).gameName
             (coinEffect (mkNewDoc st.nextId inp).type
               (mkNewDoc st.nextId inp).amountFinal)
           hist := recordHistory st.hist histOk (mkNewDoc st.nextId inp)
             "create" },
         Resp.okEntry 201 (mkNewDoc st.nextId inp)) := by
    unfold createDefault
    dsimp only
    rw [if_pos hv, ite_applyGameDelta]
  rw [hstep, hres]
  exact ⟨rfl, rfl, rfl, rfl⟩

/-- Witness for C9: the stored row keeps `reduction = 0` and
`isPending = true` untouched — no `isPending = reduction > 0` relation is
imposed at creation. -/
theorem c9_default_create_stores_raw_pending_witness :
    (createEntry (initStore ["X"]) c9inp true).2
      = Resp.okEntry 201 (mkNewDoc 0 c9inp) ∧
    (mkNewDoc 0 c9inp).reduction = some 0 ∧
    (mkNewDoc 0 c9inp).isPending = true := by
  have h := c9_default_create_stores_raw_pending (initStore ["X"]) c9inp true
    (by decide) (Or.inl (by decide)) (by decide)
  exact ⟨h.1, h.2.2.1, h.2.2.2⟩

theorem mapUpdate_cons (k' : String) (g : Group)
    (rest : List (String × Group)) (k : String) (e : Entry) :
    mapUpdate ((k', g) :: rest) k e
      = (if k' = k then (k', groupAdd g e) :: rest
         else (k', g) :: mapUpdate rest k e) := rfl

theorem mapUpdate_mem (ks : List String) (G : String → Group) (k0 : String)
    (e : Entry) (hnd : ks.Nodup) (hmem : k0 ∈ ks) :
    mapUpdate (ks.map (fun k => (k, G k))) k0 e
      = ks.map (fun k => (k, if k0 = k then groupAdd (G k) e else G k)) := by
  induction ks with
  | nil => simp at hmem
  | cons k ks ih =>
    by_cases hk : k = k0
    · subst hk
      rw [List.map_cons, mapUpdate_cons, if_pos rfl]
      rw [List.map_cons, if_pos rfl]
      congr 1
      apply List.map_congr_left
      intro y hy
      have hne : ¬ k = y := by
        intro hh
        exact (List.nodup_cons.mp hnd).1 (hh ▸ hy)
      rw [if_neg hne]
    · have hmem' : k0 ∈ ks := by
        rcases List.mem_cons.mp hmem with h | h
        · exact absurd h.symm hk
        · exact h
      rw [List.map_cons, mapUpdate_cons, if_neg hk]
      rw [ih (List.nodup_cons.mp hnd).2 hmem', List.map_cons,
        if_neg (fun hh => hk hh.symm)]

theorem mapUpdate_not_mem (ks : List String) (G : String → Group)
    (k0 : String) (e : Entry) (hmem : k0 ∉ ks) :
    mapUpdate (ks.map (fun k => (k, G k))) k0 e
      = ks.map (fun k => (k, G k)) ++ [(k0, groupAdd ⟨none, none⟩ e)] := by
  induction ks with
  | nil => rfl
  | cons k ks ih =>
    have hk : ¬ k = k0 := fun hh => hmem (hh ▸ List.mem_cons_self k ks)
    rw [List.map_cons, mapUpdate_cons, if_neg hk]
    rw [ih (fun hh => hmem (List.mem_cons_of_mem k hh))]
    rfl

theorem groupOf_append (docs : List Entry) (e : Entry) (k : String) :
    groupOf (docs ++ [e]) k
      = (if tagKey e = k then groupAdd (groupOf docs k) e
         else groupOf docs k) := by
  unfold groupOf groupAdd
  rw [List.filter_append, List.filter_append, List.getLast?_append,
    List.getLast?_append]
  by_cases hk : tagKey e = k
  · rw [if_pos hk]
    rcases hty : e.type with _ | _ | _ | _
    · rw [if_neg (by decide), if_neg (by decide)]
      rw [show List.filter (fun x =>
          tagKey x == k && x.type == EType.redeem) [e] = [] from by
        simp [hty]]
      rw [show List.filter (fun x =>
          tagKey x == k && x.type == EType.deposit) [e] = [] from by
        simp [hty]]
      simp
    · rw [if_neg (by decide), if_pos rfl]
      rw [show List.filter (fun x =>
          tagKey x == k && x.type == EType.redeem) [e] = [] from by
        simp [hty]]
      rw [show List.filter (fun x =>
          tagKey x == k && x.type == EType.deposit) [e] = [e] from by
        simp [hty, hk]]
      simp
    · rw [if_pos rfl]
      rw [show List.filter (fun x =>
          tagKey x == k && x.type == EType.redeem) [e] = [e] from by
        simp [hty, hk]]
      rw [show List.filter (fun x =>
          tagKey x == k && x.type == EType.deposit) [e] = [] from by
        simp [hty]]
      simp
    · rw [if_neg (by decide), if_neg (by decide)]
      rw [show List.filter (fun x =>
          tagKey x == k && x.type == EType.redeem) [e] = [] from by
        simp [hty]]
      rw [show List.filter (fun x =>
          tagKey x == k && x.type == EType.deposit) [e] = [] from by
        simp [hty]]
      simp
  · rw [if_neg hk]
    rw [show List.filter (fun x =>
        tagKey x == k && x.type == EType.redeem) [e] = [] from by
      simp [hk]]
    rw [show List.filter (fun x =>
        tagKey x == k && x.type == EType.deposit) [e] = [] from by
      simp [hk]]
    simp

theorem mem_foldl_keys (docs : List Entry) (acc : List String) (k : String) :
    (k ∈ docs.foldl (fun ks e =>
        if tagKey e ∈ ks then ks else ks ++ [tagKey e]) acc) ↔
      (k ∈ acc ∨ ∃ d ∈ docs, tagKey d = k) := by
  induction docs generalizing acc with
  | nil => simp
  | cons d ds ih =>
    rw [List.foldl_cons, ih]
    by_cases hd : tagKey d ∈ acc
    · rw [if_pos hd]
      constructor
      · rintro (h | h)
        · exact Or.inl h
        · exact Or.inr ⟨_, by simp [h.choose_spec.1], h.choose_spec.2⟩
      · rintro (h | ⟨x, hx, hxk⟩)
        · exact Or.inl h
        · rcases List.mem_cons.mp hx with h1 | h1
          · subst h1
            exact Or.inl (hxk ▸ hd)
          · exact Or.inr ⟨x, h1, hxk⟩
    · rw [if_neg hd]
      constructor
      · rintro (h | h)
        · rcases List.mem_append.mp h with h1 | h1
          · exact Or.inl h1
          · exact Or.inr ⟨d, List.mem_cons_self d ds,
              (List.mem_singleton.mp h1).symm⟩
        · exact Or.inr ⟨_, by simp [h.choose_spec.1], h.choose_spec.2⟩
      · rintro (h | ⟨x, hx, hxk⟩)
        · exact Or.inl (List.mem_append.mpr (Or.inl h))
        · rcases List.mem_cons.mp hx with h1 | h1
          · subst h1
            exact Or.inl (List.mem_append.mpr (Or.inr (by simp [hxk])))
          · exact Or.inr ⟨x, h1, hxk⟩

theorem mem_tagKeysFirst (docs : List Entry) (k : String) :
    k ∈ tagKeysFirst docs ↔ ∃ d ∈ docs, tagKey d = k := by
  rw [tagKeysFirst, mem_foldl_keys]
  simp

theorem nodup_foldl_keys (docs : List Entry) (acc : List String)
    (h : acc.Nodup) :
    (docs.foldl (fun ks e =>
      if tagKey e ∈ ks then ks else ks ++ [tagKey e]) acc).Nodup := by
  induction docs generalizing acc with
  | nil => exact h
  | cons d ds ih =>
    rw [List.foldl_cons]
    by_cases hd : tagKey d ∈ acc
    · rw [if_pos hd]
      exact ih acc h
    · rw [if_neg hd]
      refine ih _ ?_
      rw [List.nodup_append]
      exact ⟨h, List.nodup_singleton _,
        fun a ha hb => hd ((List.mem_singleton.mp hb) ▸ ha)⟩

theorem tagKeysFirst_nodup (docs : List Entry) : (tagKeysFirst docs).Nodup :=
  nodup_foldl_keys docs [] List.nodup_nil

theorem groupOf_empty (docs : List Entry) (k : String)
    (h : ∀ d ∈ docs, ¬ tagKey d = k) : groupOf docs k = ⟨none, none⟩ := by
  unfold groupOf
  rw [show docs.filter (fun e => tagKey e == k && e.type == EType.redeem)
      = [] from List.filter_eq_nil_iff.mpr (fun a ha => by
    simp only [Bool.and_eq_true, beq_iff_eq]
    intro hcon
    exact h a ha hcon.1)]
  rw [show docs.filter (fun e => tagKey e == k && e.type == EType.deposit)
      = [] from List.filter_eq_nil_iff.mpr (fun a ha => by
    simp only [Bool.and_eq_true, beq_iff_eq]
    intro hcon
    exact h a ha hcon.1)]
  rfl

/-- The grouping loop computes, for every key in first-occurrence order, the
latest redeem and latest deposit with that key. -/
theorem buildTagMap_eq (docs : List Entry) :
    buildTagMap docs
      = (tagKeysFirst docs).map (fun k => (k, groupOf docs k)) := by
  induction docs using List.reverseRecOn with
  | nil => rfl
  | append_singleton ds e ih =>
    rw [show buildTagMap (ds ++ [e])
        = mapUpdate (buildTagMap ds) (tagKey e) e from
      List.foldl_concat _ _ e ds]
    rw [ih]
    rw [show tagKeysFirst (ds ++ [e])
        = (if tagKey e ∈ tagKeysFirst ds then tagKeysFirst ds
           else tagKeysFirst ds ++ [tagKey e]) from
      List.foldl_concat _ _ e ds]
    by_cases hmem : tagKey e ∈ tagKeysFirst ds
    · rw [if_pos hmem,
        mapUpdate_mem (tagKeysFirst ds) (groupOf ds) (tagKey e) e
          (tagKeysFirst_nodup ds) hmem]
      apply List.map_congr_left
      intro k _
      rw [groupOf_append]
    · rw [if_neg hmem,
        mapUpdate_not_mem (tagKeysFirst ds) (groupOf ds) (tagKey e) e hmem]
      rw [List.map_append]
      congr 1
      · apply List.map_congr_left
        intro k hk
        rw [groupOf_append]
        have : ¬ tagKey e = k := fun hh => hmem (hh ▸ hk)
        rw [if_neg this]
      · rw [List.map_cons, List.map_nil]
        rw [groupOf_append, if_pos rfl]
        rw [groupOf_empty ds (tagKey e)
          (fun d hd hcon => hmem ((mem_tagKeysFirst ds (tagKey e)).mpr
            ⟨d, hd, hcon⟩))]

/-- The resolution half of `GET /pending`, declaratively: one candidate row
per first-occurrence key, from the latest deposit / latest pending redeem of
that key, kept when positive. -/
theorem pendingRows_eq (docs : List Entry) :
    pendingRows docs
      = (tagKeysFirst docs).filterMap
          (fun k => rowOfGroup (groupOf docs k)) := by
  rw [pendingRows, buildTagMap_eq, List.filterMap_map]
  rfl

theorem rowOfGroup_eq_spec (g : Group) :
    rowOfGroup g = specGroupRow g.lastDeposit g.lastRedeem := by
  rcases g with ⟨lr, ld⟩
  unfold rowOfGroup resolveGroup specGroupRow
  dsimp only
  cases ld with
  | some d =>
    dsimp only
    by_cases h : d.reduction.getD 0 ≤ 0
    · rw [if_pos h, if_neg (not_lt.mpr h)]
    · rw [if_neg h, if_pos (not_le.mp h)]
  | none =>
    cases lr with
    | some r =>
      dsimp only
      cases hp : r.isPending with
      | false => rfl
      | true =>
        rw [if_pos (Eq.refl true)]
        dsimp only
        by_cases h : r.remainingPay.getD
            (r.totalCashout.getD r.amountFinal - r.totalPaid.getD 0) ≤ 0
        · rw [if_pos h, if_neg (not_lt.mpr h)]
          rfl
        · rw [if_neg h, if_pos (not_le.mp h)]
          rfl
    | none => rfl

/-- **C3 (counterexample).** The claim as stated — grouping by the pair
(username, playerTag) — is false: on `c3docs` the pair-grouped resolution
keeps the pending redeem of `("a::b", "")`, while the implementation's
string-keyed map collapses the two distinct pairs into one group, whose
later deposit (reduction 0) suppresses everything. -/
theorem c3_pair_grouping_counterexample :
    listPending none c3docs = [] ∧
    specPairPending (pendingMatch none c3docs) ≠ [] ∧
    specPairPending (pendingMatch none c3docs) ≠ listPending none c3docs := by
  refine ⟨by decide, by decide, by decide⟩

/-- **C3 (amended).** `ListPending` groups the matched redeem/deposit rows
by the string key `username ++ "::" ++ playerTag` (which coincides with
grouping by the pair whenever the username contains no `"::"`); for each
key, in first-occurrence order, the latest deposit resolves to its
`reduction` (unconditional priority, even when 0), else a latest redeem
with `isPending` resolves to `remainingPay` with fallback
`totalCashout − totalPaid`, and non-positive resolutions are dropped.  In
particular the pending-redeem-50-then-deposit-0 tag is not listed. -/
theorem c3_listPending_string_key_resolution :
    (∀ username entries,
      listPending username entries
        = (tagKeysFirst (pendingMatch username entries)).filterMap (fun k =>
            specGroupRow
              (((pendingMatch username entries).filter (fun e =>
                tagKey e == k && e.type == EType.deposit)).getLast?)
              (((pendingMatch username entries).filter (fun e =>
                tagKey e == k && e.type == EType.redeem)).getLast?))) ∧
    listPending none [c3sRedeem, c3sDeposit] = [] := by
  constructor
  · intro username entries
    rw [listPending, pendingRows_eq]
    apply List.filterMap_congr
    intro k _
    rw [rowOfGroup_eq_spec]
    rfl
  · decide

theorem specGroupRow_base (dep red : Option Entry) (r : PendingRow)
    (h : specGroupRow dep red = some r) :
    (∃ d, dep = some d ∧ r.username = d.username
        ∧ r.playerTag = d.playerTag) ∨
    (∃ e, red = some e ∧ r.username = e.username
        ∧ r.playerTag = e.playerTag) := by
  cases dep with
  | some d =>
    simp only [specGroupRow] at h
    by_cases hlt : (0 : ℤ) < d.reduction.getD 0
    · rw [if_pos hlt] at h
      left
      refine ⟨d, rfl, ?_, ?_⟩ <;> rw [← Option.some_inj.mp h]
    · rw [if_neg hlt] at h
      exact absurd h (by simp)
  | none =>
    cases red with
    | some e =>
      simp only [specGroupRow] at h
      cases hp : e.isPending with
      | false =>
        rw [hp] at h
        exact absurd h (by simp)
      | true =>
        rw [hp, if_pos rfl] at h
        by_cases hlt : (0 : ℤ) < e.remainingPay.getD
            (e.totalCashout.getD e.amountFinal - e.totalPaid.getD 0)
        · rw [if_pos hlt] at h
          right
          refine ⟨e, rfl, ?_, ?_⟩ <;> rw [← Option.some_inj.mp h]
        · rw [if_neg hlt] at h
          exact absurd h (by simp)
    | none => simp [specGroupRow] at h

theorem specGroupRow_key (docs : List Entry) (k : String) (r : PendingRow)
    (h : rowOfGroup (groupOf docs k) = some r) : keyRow r = k := by
  rw [rowOfGroup_eq_spec] at h
  rcases specGroupRow_base _ _ r h with ⟨d, hd, hu, ht⟩ | ⟨e, he, hu, ht⟩
  · have hd' : (docs.filter (fun e =>
        tagKey e == k && e.type == EType.deposit)).getLast? = some d := hd
    have hkey : tagKey d = k := by
      have := (List.mem_filter.mp (mem_of_getLast?_eq_some hd')).2
      simp only [Bool.and_eq_true, beq_iff_eq] at this
      exact this.1
    rw [keyRow, hu, ht]
    exact hkey
  · have he' : (docs.filter (fun e =>
        tagKey e == k && e.type == EType.redeem)).getLast? = some e := he
    have hkey : tagKey e = k := by
      have := (List.mem_filter.mp (mem_of_getLast?_eq_some he')).2
      simp only [Bool.and_eq_true, beq_iff_eq] at this
      exact this.1
    rw [keyRow, hu, ht]
    exact hkey

theorem filterMap_key_pairwise (ks : List String)
    (f : String → Option PendingRow)
    (hf : ∀ k r, f k = some r → keyRow r = k) (hnd : ks.Nodup) :
    (ks.filterMap f).Pairwise (fun a b => keyRow a ≠ keyRow b) := by
  induction ks with
  | nil => exact List.Pairwise.nil
  | cons k ks ih =>
    rw [List.filterMap_cons]
    cases hk : f k with
    | none => exact ih (List.nodup_cons.mp hnd).2
    | some r =>
      rw [List.pairwise_cons]
      refine ⟨?_, ih (List.nodup_cons.mp hnd).2⟩
      intro b hb
      obtain ⟨k2, hk2, hfk2⟩ := List.mem_filterMap.mp hb
      rw [hf k r hk, hf k2 b hfk2]
      intro hcon
      exact (List.nodup_cons.mp hnd).1 (hcon ▸ hk2)

theorem pendingRows_key_pairwise (docs : List Entry) :
    (pendingRows docs).Pairwise (fun a b => keyRow a ≠ keyRow b) := by
  rw [pendingRows_eq]
  exact filterMap_key_pairwise (tagKeysFirst docs) _
    (fun k r h => specGroupRow_key docs k r h) (tagKeysFirst_nodup docs)

theorem pairwise_filter_length_le_one (l : List PendingRow)
    (p : PendingRow → Bool) (v : String)
    (hl : l.Pairwise (fun a b => keyRow a ≠ keyRow b))
    (hp : ∀ x, p x = true → keyRow x = v) : (l.filter p).length ≤ 1 := by
  induction l with
  | nil => exact Nat.zero_le 1
  | cons x xs ih =>
    obtain ⟨hx, hxs⟩ := List.pairwise_cons.mp hl
    by_cases hpx : p x = true
    · rw [show (x :: xs).filter p = x :: xs.filter p from by
        simp [List.filter_cons, hpx]]
      rw [show xs.filter p = [] from List.filter_eq_nil_iff.mpr ?_]
      · exact le_refl 1
      · intro y hy hpy
        exact hx y hy ((hp x hpx).trans (hp y hpy).symm)
    · rw [show (x :: xs).filter p = xs.filter p from by
        simp [List.filter_cons, hpx]]
      exact ih hxs

/-- **C10.** Entries with an empty (or missing) `playerTag` are not
excluded from pending resolution: they are grouped under the empty-tag key
`username ++ "::"`, all such rows of one username form a single group, and
at most one no-tag pending row per username can appear in the output of the
resolver — which is shared verbatim by `GET /pending` and the pending
section of `GET /summary`. -/
theorem c10_empty_tag_grouping :
    (∀ e : Entry, e.playerTag = "" → tagKey e = e.username ++ "::") ∧
    (∀ (docs : List Entry) (u : String),
      ((pendingRows docs).filter (fun r =>
        r.username == u && r.playerTag == "")).length ≤ 1) ∧
    (∀ username entries, listPending username entries
        = pendingRows (pendingMatch username entries)) ∧
    (∀ (scope : Entry → Bool) entries,
      (summarize scope entries).pendingEntries
        = pendingRows (entries.filter (fun e =>
            scope e && (e.type == EType.redeem || e.type == EType.deposit)))) ∧
    pendingRows [c10redeem] ≠ [] := by
  refine ⟨?_, ?_, fun _ _ => rfl, fun _ _ => rfl, by decide⟩
  · intro e h
    rw [tagKey, h, String.append_empty]
  · intro docs u
    apply pairwise_filter_length_le_one (pendingRows docs) _
      (u ++ "::" ++ "") (pendingRows_key_pairwise docs)
    intro x hx
    simp only [Bool.and_eq_true, beq_iff_eq] at hx
    rw [keyRow, hx.1, hx.2]

/-- Witness for C10: a no-tag pending redeem is listed, under the empty-tag
key of its username, and the no-tag row count for that username is at most
one. -/
theorem c10_empty_tag_grouping_witness :
    tagKey c10redeem = "alice::" ∧
    ((pendingRows [c10redeem]).filter (fun r =>
      r.username == "alice" && r.playerTag == "")).length ≤ 1 ∧
    pendingRows [c10redeem] ≠ [] := by
  obtain ⟨h1, h2, _, _, h5⟩ := c10_empty_tag_grouping
  exact ⟨h1 c10redeem rfl, h2 [c10redeem] "alice", h5⟩

theorem redeem_not_dep (e : Entry)
    (h : (e.type == EType.deposit && decide (0 < e.reduction.getD 0)) = true) :
    (e.type == EType.redeem && e.isPending) = false := by
  simp only [Bool.and_eq_true, beq_iff_eq] at h
  rw [h.1]
  simp

/-- The scanning loop of `GET /pending-by-tag`, declaratively: the last
pending redeem and the last positive-reduction deposit, falling back to the
accumulator. -/
theorem byTagLoop_eq (docs : List Entry) (acc : Option Entry × Option Entry) :
    byTagLoop docs acc
      = (((docs.filter (fun e =>
            e.type == EType.redeem && e.isPending)).getLast?).or acc.1,
         ((docs.filter (fun e =>
            e.type == EType.deposit
              && decide (0 < e.reduction.getD 0))).getLast?).or acc.2) := by
  induction docs using List.reverseRecOn with
  | nil => simp [byTagLoop]
  | append_singleton docs e ih =>
    unfold byTagLoop at ih ⊢
    rw [List.foldl_append]
    dsimp only [List.foldl]
    rw [ih, List.filter_append, List.filter_append]
    by_cases hd : (e.type == EType.deposit
        && decide (0 < e.reduction.getD 0)) = true
    · rw [if_pos hd]
      rw [show List.filter (fun e =>
          e.type == EType.redeem && e.isPending) [e] = [] from by
        simp [List.filter, redeem_not_dep e hd]]
      rw [show List.filter (fun e =>
          e.type == EType.deposit
            && decide (0 < e.reduction.getD 0)) [e] = [e] from by
        simp [List.filter, hd]]
      simp [List.getLast?_append]
    · rw [if_neg hd]
      rw [show List.filter (fun e =>
          e.type == EType.deposit
            && decide (0 < e.reduction.getD 0)) [e] = [] from by
        simp [List.filter, Bool.eq_false_iff.mpr hd]]
      by_cases hr : (e.type == EType.redeem && e.isPending) = true
      · rw [if_pos hr]
        rw [show List.filter (fun e =>
            e.type == EType.redeem && e.isPending) [e] = [e] from by
          simp [List.filter, hr]]
        simp [List.getLast?_append]
      · rw [if_neg hr]
        rw [show List.filter (fun e =>
            e.type == EType.redeem && e.isPending) [e] = [] from by
          simp [List.filter, Bool.eq_false_iff.mpr hr]]
        simp

/-- **C4 (amended).** `GET /pending-by-tag` is NOT the `GET /pending`
resolver restricted to one pair: its Mongo match keeps only qualifying rows
(pending redeems, deposits with positive `reduction`), so the latest
QUALIFYING deposit wins — a later deposit with `reduction = 0` does not
suppress an older pending redeem here, although it does in `GET /pending`.
`lookupPendingByTag` equals this qualifying-rows resolution for every
request. -/
theorem c4_by_tag_qualifying_resolution (pt un : Option String)
    (entries : List Entry) :
    lookupPendingByTag pt un entries = specByTagAmended pt un entries := by
  unfold lookupPendingByTag specByTagAmended
  dsimp only
  generalize jsTrim (pt.getD "") = ct
  generalize jsTrim (un.getD "") = cu
  split
  · rfl
  · rw [byTagLoop_eq]
    dsimp only
    simp only [Option.or_none]
    have hdep : (entries.filter (fun e =>
          e.username == cu && e.playerTag == ct && byTagQualifies e)).filter
            (fun e => e.type == EType.deposit
              && decide (0 < e.reduction.getD 0))
        = (entries.filter (fun e =>
            e.username == cu && e.playerTag == ct)).filter
              (fun e => e.type == EType.deposit
                && decide (0 < e.reduction.getD 0)) := by
      rw [List.filter_filter, List.filter_filter]
      apply List.filter_congr
      intro e _
      simp only [byTagQualifies]
      cases e.username == cu <;> cases e.playerTag == ct <;>
        cases e.type == EType.redeem && e.isPending <;>
        cases e.type == EType.deposit && decide (0 < e.reduction.getD 0) <;>
        rfl
    have hred : (entries.filter (fun e =>
          e.username == cu && e.playerTag == ct && byTagQualifies e)).filter
            (fun e => e.type == EType.redeem && e.isPending)
        = (entries.filter (fun e =>
            e.username == cu && e.playerTag == ct)).filter
              (fun e => e.type == EType.redeem && e.isPending) := by
      rw [List.filter_filter, List.filter_filter]
      apply List.filter_congr
      intro e _
      simp only [byTagQualifies]
      cases e.username == cu <;> cases e.playerTag == ct <;>
        cases e.type == EType.redeem && e.isPending <;>
        cases e.type == EType.deposit && decide (0 < e.reduction.getD 0) <;>
        rfl
    rw [hdep, hred]
    by_cases he : (entries.filter (fun e =>
        e.username == cu && e.playerTag == ct
          && byTagQualifies e)).isEmpty = true
    · rw [if_pos he]
      have hnil : entries.filter (fun e =>
          e.username == cu && e.playerTag == ct && byTagQualifies e)
            = [] := List.isEmpty_iff.mp he
      have h1 : ((entries.filter (fun e =>
          e.username == cu && e.playerTag == ct)).filter
            (fun e => e.type == EType.deposit
              && decide (0 < e.reduction.getD 0))).getLast? = none := by
        rw [← hdep, hnil]
        rfl
      have h2 : ((entries.filter (fun e =>
          e.username == cu && e.playerTag == ct)).filter
            (fun e => e.type == EType.redeem && e.isPending)).getLast?
              = none := by
        rw [← hred, hnil]
        rfl
      rw [h1, h2]
    · rw [if_neg he]
      cases hd : ((entries.filter (fun e =>
          e.username == cu && e.playerTag == ct)).filter
            (fun e => e.type == EType.deposit
              && decide (0 < e.reduction.getD 0))).getLast? with
      | none => rfl
      | some d =>
        have hpos : (0 : ℤ) < d.reduction.getD 0 := by
          have := (List.mem_filter.mp (mem_of_getLast?_eq_some hd)).2
          simp only [Bool.and_eq_true, decide_eq_true_eq] at this
          exact this.2
        dsimp only
        rw [if_neg (not_le.mpr hpos)]

/-- Counterexample to C4 as stated: after a pending redeem of 50 a deposit
with `reduction = 0` arrives for the same `(username, playerTag)`.
`GET /pending` suppresses the pair (the deposit wins the group with amount
0), but `GET /pending-by-tag` still reports the redeem's 50: the two
endpoints do NOT compute the same resolution for that pair, and the lookup
does not return 404 exactly when the `GET /pending` group resolves
non-positively. -/
theorem c4_by_tag_ignores_zero_reduction_deposit :
    lookupPendingByTag (some "t") (some "u") [c4redeem, c4deposit]
      = TagLookup.found "t" 50 50 0 50 0 ∧
    listPending none [c4redeem, c4deposit] = [] ∧
    lookupPendingByTag (some "t") (some "u") [c4redeem, c4deposit]
      ≠ TagLookup.notFound := by
  refine ⟨by decide, by decide, by decide⟩

theorem find?_byTypeAdd (m : List (EType × ℤ)) (e : Entry) (t : EType) :
    ((byTypeAdd m e).find? (fun ts => ts.1 == t)).map (fun ts => ts.2)
      = (if e.type = t
         then some ((((m.find? (fun ts => ts.1 == t)).map
             (fun ts => ts.2)).getD 0) + byTypeAmount e)
         else (m.find? (fun ts => ts.1 == t)).map (fun ts => ts.2)) := by
  induction m with
  | nil =>
    dsimp [byTypeAdd]
    by_cases ht : e.type = t
    · rw [if_pos ht]
      rw [show List.find? (fun ts => ts.1 == t)
          [(e.type, byTypeAmount e)] = some (e.type, byTypeAmount e) from by
        simp [List.find?_cons, ht]]
      simp
    · rw [if_neg ht]
      rw [show List.find? (fun ts => ts.1 == t)
          [(e.type, byTypeAmount e)] = none from by
        simp [List.find?_cons, ht]]
      rfl
  | cons ks rest ih =>
    obtain ⟨k, s⟩ := ks
    dsimp [byTypeAdd]
    by_cases hk : k = e.type
    · rw [if_pos hk]
      by_cases hkt : k = t
      · have het : e.type = t := hk ▸ hkt
        rw [if_pos het]
        rw [show List.find? (fun ts => ts.1 == t)
            ((k, s + byTypeAmount e) :: rest)
              = some (k, s + byTypeAmount e) from by
          simp [List.find?_cons, hkt]]
        rw [show List.find? (fun ts => ts.1 == t) ((k, s) :: rest)
            = some (k, s) from by
          simp [List.find?_cons, hkt]]
        rfl
      · have het : ¬ e.type = t := fun hh => hkt (hk.trans hh)
        rw [if_neg het]
        rw [show List.find? (fun ts => ts.1 == t)
            ((k, s + byTypeAmount e) :: rest)
              = List.find? (fun ts => ts.1 == t) rest from by
          simp [List.find?_cons, hkt]]
        rw [show List.find? (fun ts => ts.1 == t) ((k, s) :: rest)
            = List.find? (fun ts => ts.1 == t) rest from by
          simp [List.find?_cons, hkt]]
    · rw [if_neg hk]
      by_cases hkt : k = t
      · have het : ¬ e.type = t := fun hh => hk (hkt.trans hh.symm)
        rw [if_neg het]
        rw [show List.find? (fun ts => ts.1 == t)
            ((k, s) :: byTypeAdd rest e) = some (k, s) from by
          simp [List.find?_cons, hkt]]
        rw [show List.find? (fun ts => ts.1 == t) ((k, s) :: rest)
            = some (k, s) from by
          simp [List.find?_cons, hkt]]
      · rw [show List.find? (fun ts => ts.1 == t)
            ((k, s) :: byTypeAdd rest e)
              = List.find? (fun ts => ts.1 == t) (byTypeAdd rest e) from by
          simp [List.find?_cons, hkt]]
        rw [show List.find? (fun ts => ts.1 == t) ((k, s) :: rest)
            = List.find? (fun ts => ts.1 == t) rest from by
          simp [List.find?_cons, hkt]]
        exact ih

/-- The `$group`-and-extract pipeline equals a plain per-kind sum of
`byTypeAmount` over the matching documents. -/
theorem typeTotal_eq (docs : List Entry) (t : EType) :
    typeTotal docs t
      = ((docs.filter (fun e => e.type == t)).map byTypeAmount).sum := by
  induction docs using List.reverseRecOn with
  | nil => rfl
  | append_singleton docs e ih =>
    unfold typeTotal byType at ih ⊢
    rw [List.foldl_append]
    dsimp only [List.foldl]
    rw [find?_byTypeAdd]
    rw [List.filter_append, List.map_append, List.sum_append]
    by_cases het : e.type = t
    · rw [if_pos het]
      rw [show List.filter (fun e => e.type == t) [e] = [e] from by
        simp [het]]
      rw [Option.getD_some, ih]
      simp
    · rw [if_neg het]
      rw [show List.filter (fun e => e.type == t) [e] = [] from by
        simp [het]]
      rw [ih]
      simp

/-- **C5.** For every scope, `GET /summary` reports per-kind totals that
each equal the sum of `amountFinal` over the scope-matched entries of that
kind (`amountFinal` is schema-required, so the aggregation's
`amountFinal ?? amount ?? 0` fallback always takes the first step), and its
net coin figure equals `totalRedeem − (totalFreeplay + totalPlayedGame +
totalDeposit)`; a scope holding one freeplay of 20 and one redeem of 5
yields `totalCoin = −15`. -/
theorem c5_summary_totals (scope : Entry → Bool) (entries : List Entry) :
    (summarize scope entries).totalFreeplay
      = (((entries.filter scope).filter (fun e =>
          e.type == EType.freeplay)).map (fun e => e.amountFinal)).sum ∧
    (summarize scope entries).totalPlayedGame
      = (((entries.filter scope).filter (fun e =>
          e.type == EType.playedgame)).map (fun e => e.amountFinal)).sum ∧
    (summarize scope entries).totalDeposit
      = (((entries.filter scope).filter (fun e =>
          e.type == EType.deposit)).map (fun e => e.amountFinal)).sum ∧
    (summarize scope entries).totalRedeem
      = (((entries.filter scope).filter (fun e =>
          e.type == EType.redeem)).map (fun e => e.amountFinal)).sum ∧
    (summarize scope entries).totalCoin
      = (summarize scope entries).totalRedeem
        - ((summarize scope entries).totalFreeplay
          + (summarize scope entries).totalPlayedGame
          + (summarize scope entries).totalDeposit) ∧
    (summarize (fun _ => true) [c5freeplay, c5redeem]).totalCoin = -15 :=
  ⟨typeTotal_eq (entries.filter scope) EType.freeplay,
   typeTotal_eq (entries.filter scope) EType.playedgame,
   typeTotal_eq (entries.filter scope) EType.deposit,
   typeTotal_eq (entries.filter scope) EType.redeem,
   rfl, by decide⟩

end Shopie
